import Mathlib

/-!
# netdevs: address keys and the cached interface table

A shallow embedding of `netdevs.go`.  Go strings and byte slices are lists of
bytes, a nil slice or nil pointer is `none`, the package variables `ifmap`,
`MinScanInterval` and `deadline` form an explicit `State`, and what the
operating system answers during one call (`time.Now`, `net.Interfaces`,
`(*Interface).Addrs`) is an explicit `Env`.  Every function that may reach the
operating system also returns the list of calls it made.

The functions of Go's `net` package used by the source (`IP.To4`, `IP.To16`,
`IPv4`) are transcribed from the standard library.
-/

namespace Netdevs

/-! ## Bytes, strings, errors -/

/-- One byte. -/
abbrev Byte := Fin 256

/-- Go `string` / `[]byte`: a sequence of bytes. -/
abbrev Bytes := List Byte

/-- Go string literal `"i4"`. -/
def strI4 : Bytes := [0x69, 0x34]

/-- Go string literal `"i6"`. -/
def strI6 : Bytes := [0x69, 0x36]

/-- Go string literal `"m6"`. -/
def strM6 : Bytes := [0x6d, 0x36]

/-- Operand of the single `%q` verb of the `fmt.Errorf` calls of the source, with
its static Go type (which decides how `%q` renders it). -/
inductive Operand where
  /-- `[]byte(x)`: the raw bytes, quoted. -/
  | raw (b : Bytes)
  /-- Value of type `net.HardwareAddr`. -/
  | hw (b : Bytes)
  /-- Value of type `net.IP`. -/
  | ip (b : Bytes)
  deriving DecidableEq, Repr

/-- Go `error` values that occur in the package. -/
inductive Error where
  /-- `fmt.Errorf(format, arg)`. -/
  | errorf (format : String) (arg : Operand)
  /-- Error returned by the operating system (`net.Interfaces`, `Addrs`). -/
  | os (code : Nat)
  deriving DecidableEq, Repr

/-- Equality of Go result pairs `(value, error)` is decidable. -/
instance instDecidableEqExcept {ε α : Type} [DecidableEq ε] [DecidableEq α] :
    DecidableEq (Except ε α)
  | .ok a, .ok b => if h : a = b then isTrue (by rw [h]) else isFalse (fun e => h (by cases e; rfl))
  | .error a, .error b =>
    if h : a = b then isTrue (by rw [h]) else isFalse (fun e => h (by cases e; rfl))
  | .ok _, .error _ => isFalse (fun e => by cases e)
  | .error _, .ok _ => isFalse (fun e => by cases e)

/-! ## Package `net` -/

/-- `net.IPv4len`. -/
def IPv4len : Nat := 4

/-- `net.IPv6len`. -/
def IPv6len : Nat := 16

/-- `net.v4InV6Prefix`. -/
def v4InV6Prefix : Bytes := [0, 0, 0, 0, 0, 0, 0, 0, 0, 0, 0xff, 0xff]

/-- `net.IPv4(a, b, c, d)`: the 16-byte form of the IPv4 address `a.b.c.d`. -/
def IPv4 (a b c d : Byte) : Bytes := v4InV6Prefix ++ [a, b, c, d]

/-- `net.isZeros`. -/
def isZeros (p : Bytes) : Bool := p.all (fun b => b == 0)

/-- `net.IP.To4`: the 4-byte form of `ip`, `none` (nil) when there is none. -/
def To4 (ip : Bytes) : Option Bytes :=
  if ip.length = IPv4len then some ip
  else if ip.length = IPv6len ∧ isZeros (ip.take 10) = true ∧
      ip.get? 10 = some 0xff ∧ ip.get? 11 = some 0xff then
    some ((ip.drop 12).take 4)
  else none

/-- `net.IP.To16`: the 16-byte form of `ip`, `none` (nil) when there is none. -/
def To16 (ip : Bytes) : Option Bytes :=
  if ip.length = IPv4len then
    some (IPv4 (ip.getD 0 0) (ip.getD 1 0) (ip.getD 2 0) (ip.getD 3 0))
  else if ip.length = IPv6len then some ip
  else none

/-! ## Keys -/

/-- `keyForIP` returns a unique key for the given IP address. -/
def keyForIP (ip : Bytes) : Except Error Bytes :=
  match To4 ip with
  | some ipv4 => .ok (strI4 ++ ipv4.take IPv4len)
  | none =>
    match To16 ip with
    | some ipv6 => .ok (strI6 ++ ipv6.take IPv6len)
    | none => .error (.errorf "unhandled IP address %q" (.raw ip))

/-- `keyForMAC` returns a unique key for the given hardware address. -/
def keyForMAC (hw : Bytes) : Except Error Bytes :=
  if hw.length = 6 then .ok (strM6 ++ hw)
  else .error (.errorf "unhandled hardware address %q" (.raw hw))

/-! ## Interfaces and the operating system -/

/-- Go `net.Addr` value returned by `(*Interface).Addrs`. -/
inductive Addr where
  /-- Value of dynamic type `*net.IPNet`, with its fields `IP` and `Mask`. -/
  | IPNet (IP : Bytes) (Mask : Bytes)
  /-- Value of any other dynamic type (the type assertion to `*IPNet` fails). -/
  | other (network : String) (text : String)
  deriving DecidableEq, Repr

/-- Go `net.Interface`, together with what its method `Addrs` answers when the
table is built.  The fields `MTU` and `Flags`, which the package never reads,
are left out. -/
structure Interface where
  /-- Field `Index`. -/
  Index : Nat
  /-- Field `Name`. -/
  Name : String
  /-- Field `HardwareAddr`. -/
  HardwareAddr : Bytes
  /-- Result of the call `ifi.Addrs()`. -/
  Addrs : Except Error (List Addr)
  deriving DecidableEq, Repr

/-- Calls to the outside world. -/
inductive Call where
  /-- Call of `time.Now()`. -/
  | Now
  /-- Call of `net.Interfaces()` (the provider). -/
  | Interfaces
  /-- Call of `ifi.Addrs()` on the interface of that name. -/
  | Addrs (name : String)
  deriving DecidableEq, Repr

/-- What the outside world answers during one call of the package.  A
`time.Time` is an integer number of nanoseconds on one clock, `Before` is `<`
and `Add` is `+`. -/
structure Env where
  /-- Result of `time.Now()`. -/
  now : Int
  /-- Result of `net.Interfaces()`. -/
  Interfaces : Except Error (List Interface)
  deriving DecidableEq, Repr

/-! ## The table -/

/-- Go `map[string]*Interface`: association list, most recent assignment first,
one entry per key.  The nil map and the empty map are both `[]`. -/
abbrev IfMap := List (Bytes × Interface)

/-- Map read `m[k]` in its two-result form: `none` is "not found". -/
def IfMap.get (m : IfMap) (k : Bytes) : Option Interface :=
  List.lookup k m

/-- Map assignment `m[k] = v`. -/
def IfMap.set (m : IfMap) (k : Bytes) (v : Interface) : IfMap :=
  (k, v) :: m.filter (fun e => e.1 != k)

/-- The package variables. -/
structure State where
  /-- Variable `ifmap` maps hardware and IP addresses to local network interfaces. -/
  ifmap : IfMap
  /-- Variable `MinScanInterval` is the minimum time between ifmap updates. -/
  MinScanInterval : Int
  /-- Variable `deadline` is the time before which ifmap will not be updated. -/
  deadline : Int
  deriving DecidableEq, Repr

/-- The package variables when the program starts: nil map, 100 ms (in
nanoseconds), zero time. -/
def State.initial : State :=
  { ifmap := [], MinScanInterval := 100 * 1000000, deadline := 0 }

/-- Lines 91-100 of `maybeUpdateIfMap`: the hardware address of one interface.
Returns the error of an early `return`, and the map as it then is. -/
def putHardwareAddr (ifi : Interface) (m : IfMap) : Option Error × IfMap :=
  if ifi.HardwareAddr.length ≠ 0 then
    match keyForMAC ifi.HardwareAddr with
    | .error err => (some err, m)
    | .ok k =>
      if (m.get k).isSome then
        (some (.errorf "duplicate hardware address %q" (.hw ifi.HardwareAddr)), m)
      else (none, m.set k ifi)
  else (none, m)

/-- Lines 106-121 of `maybeUpdateIfMap`: the loop over the addresses of one
interface.  Returns the error of an early `return`, and the map as it then is. -/
def rangeAddrs (ifi : Interface) : List Addr → IfMap → Option Error × IfMap
  | [], m => (none, m)
  | .other _ _ :: rest, m => rangeAddrs ifi rest m
  | .IPNet ip _ :: rest, m =>
    match keyForIP ip with
    | .error err => (some err, m)
    | .ok k =>
      if (m.get k).isSome then (some (.errorf "duplicate IP address %q" (.ip ip)), m)
      else rangeAddrs ifi rest (m.set k ifi)

/-- Lines 90-122 of `maybeUpdateIfMap`: the loop over the interfaces.  Each
iteration has its own variable `ifi` (Go 1.22 loop semantics, which the tests
`TestLookupKnownIP` and `TestLookupKnownMAC` rely on), so `&ifi` points to a
copy of that iteration's interface.  Returns the error of an early `return`,
the map as it then is, and the calls made. -/
def rangeIfs : List Interface → IfMap → List Call → Option Error × IfMap × List Call
  | [], m, cs => (none, m, cs)
  | ifi :: rest, m, cs =>
    match putHardwareAddr ifi m with
    | (some err, m1) => (some err, m1, cs)
    | (none, m1) =>
      match ifi.Addrs with
      | .error err => (some err, m1, cs ++ [.Addrs ifi.Name])
      | .ok addrs =>
        match rangeAddrs ifi addrs m1 with
        | (some err, m2) => (some err, m2, cs ++ [.Addrs ifi.Name])
        | (none, m2) => rangeIfs rest m2 (cs ++ [.Addrs ifi.Name])

/-- `maybeUpdateIfMap` replaces ifmap with an updated table if the current
time is after deadline.  Does nothing if called before deadline.
Returns the error, the package variables afterwards, and the calls made. -/
def maybeUpdateIfMap (env : Env) (s : State) : Option Error × State × List Call :=
  let ts := env.now
  if ts < s.deadline then (none, s, [.Now])
  else
    match env.Interfaces with
    | .error err => (some err, s, [.Now, .Interfaces])
    | .ok ifs =>
      match rangeIfs ifs [] [.Now, .Interfaces] with
      | (some err, m, cs) => (some err, { s with ifmap := m }, cs)
      | (none, m, cs) =>
        (none, { s with ifmap := m, deadline := ts + s.MinScanInterval }, cs)

/-- Result of a lookup: the two Go results, the package variables afterwards,
and the calls made. -/
structure Outcome where
  /-- First result, `none` for a nil pointer. -/
  ifi : Option Interface
  /-- Second result, `none` for a nil error. -/
  err : Option Error
  /-- The package variables afterwards. -/
  state : State
  /-- The calls to the outside world, in order. -/
  calls : List Call
  deriving DecidableEq, Repr

/-- `interfaceWithKey` returns the local network interface with the
specified key, or nil, nil if no interface has the specified key. -/
def interfaceWithKey (env : Env) (k : Bytes) (s : State) : Outcome :=
  match s.ifmap.get k with
  | some ifi => { ifi := some ifi, err := none, state := s, calls := [] }
  | none =>
    match maybeUpdateIfMap env s with
    | (some err, s1, cs) => { ifi := none, err := some err, state := s1, calls := cs }
    | (none, s1, cs) => { ifi := s1.ifmap.get k, err := none, state := s1, calls := cs }

/-- `InterfaceWithIP` returns the local network interface configured with
the specified IP address, or nil, nil if no interface is configured
with the specified address. -/
def InterfaceWithIP (env : Env) (ip : Bytes) (s : State) : Outcome :=
  match keyForIP ip with
  | .error err => { ifi := none, err := some err, state := s, calls := [] }
  | .ok k => interfaceWithKey env k s

/-- `InterfaceWithMAC` returns the local network interface with the
specified hardware address, or nil, nil if no interface has the
specified address. -/
def InterfaceWithMAC (env : Env) (hw : Bytes) (s : State) : Outcome :=
  match keyForMAC hw with
  | .error err => { ifi := none, err := some err, state := s, calls := [] }
  | .ok k => interfaceWithKey env k s

/-! ## The keys a provider list derives

These definitions follow the words of the specification ("the MAC key of each
interface with a non-empty hardware address and the IP key of each of its
assigned IP addresses"), not the loops of `maybeUpdateIfMap`; the theorems
compare the two. -/

/-- The MAC key of an interface with a non-empty hardware address, with that
interface. -/
def macEntries (ifi : Interface) : List (Bytes × Interface) :=
  if ifi.HardwareAddr.length ≠ 0 then
    match keyForMAC ifi.HardwareAddr with
    | .ok k => [(k, ifi)]
    | .error _ => []
  else []

/-- The IP keys of the IP-network addresses among `addrs`, each with `ifi`. -/
def ipEntries (ifi : Interface) : List Addr → List (Bytes × Interface)
  | [] => []
  | .other _ _ :: rest => ipEntries ifi rest
  | .IPNet ip _ :: rest =>
    (match keyForIP ip with
      | .ok k => [(k, ifi)]
      | .error _ => []) ++ ipEntries ifi rest

/-- The addresses that `ifi.Addrs()` lists, none when the call fails. -/
def Interface.addrList (ifi : Interface) : List Addr :=
  match ifi.Addrs with
  | .ok addrs => addrs
  | .error _ => []

/-- The derived keys of one interface, each with that interface. -/
def entriesOf (ifi : Interface) : List (Bytes × Interface) :=
  macEntries ifi ++ ipEntries ifi ifi.addrList

/-- The derived keys of a provider list, each with its interface. -/
def derivedEntries : List Interface → List (Bytes × Interface)
  | [] => []
  | ifi :: rest => entriesOf ifi ++ derivedEntries rest

/-- The keys of a list of entries. -/
def keysOf (es : List (Bytes × Interface)) : List Bytes := es.map Prod.fst

/-- Map `m2` is map `m1` with the entries `es` added: each entry of `es` is in
`m2`, and every key outside `es` reads in `m2` as it does in `m1`. -/
def Extends (m1 m2 : IfMap) (es : List (Bytes × Interface)) : Prop :=
  (∀ k v, (k, v) ∈ es → m2.get k = some v) ∧ (∀ k, k ∉ keysOf es → m2.get k = m1.get k)

/-! ## The entries of a provider list, one after the other

These definitions follow the words of the specification ("in provider order,
hardware address before IP addresses within each interface", "the entries
processed before the failing one"): the provider list is laid out as one
sequence of entries, which are inserted one by one until the first that
fails.  The theorems compare this with the nested loops of `maybeUpdateIfMap`. -/

/-- One entry of a provider list. -/
inductive Step where
  /-- The non-empty hardware address of an interface. -/
  | hw (ifi : Interface)
  /-- The address listing of an interface, when it fails with `err`; a listing
  that succeeds is not an entry, its addresses are. -/
  | listing (ifi : Interface) (err : Error)
  /-- One IP-network address of an interface, with its field `IP`. -/
  | ip (ifi : Interface) (ip : Bytes)
  deriving DecidableEq, Repr

/-- The interface an entry belongs to. -/
def Step.ifi : Step → Interface
  | .hw i => i
  | .listing i _ => i
  | .ip i _ => i

/-- The key an entry derives, or the error it fails with before any key is
looked at. -/
def Step.key : Step → Except Error Bytes
  | .hw i => keyForMAC i.HardwareAddr
  | .listing _ err => .error err
  | .ip _ a => keyForIP a

/-- The error an entry fails with when its key is already in the map. -/
def Step.duplicate : Step → Error
  | .hw i => .errorf "duplicate hardware address %q" (.hw i.HardwareAddr)
  | .listing _ err => err
  | .ip _ a => .errorf "duplicate IP address %q" (.ip a)

/-- The hardware-address entry of an interface, if its address is not empty. -/
def hwSteps (ifi : Interface) : List Step :=
  if ifi.HardwareAddr.length ≠ 0 then [Step.hw ifi] else []

/-- The entries of the IP-network addresses among `addrs`, in order. -/
def ipSteps (ifi : Interface) : List Addr → List Step
  | [] => []
  | .other _ _ :: rest => ipSteps ifi rest
  | .IPNet ip _ :: rest => Step.ip ifi ip :: ipSteps ifi rest

/-- The entries of one interface: hardware address before IP addresses. -/
def stepsOf (ifi : Interface) : List Step :=
  hwSteps ifi ++
    (match ifi.Addrs with
      | .ok addrs => ipSteps ifi addrs
      | .error err => [Step.listing ifi err])

/-- The entries of a provider list, in provider order. -/
def steps : List Interface → List Step
  | [] => []
  | ifi :: rest => stepsOf ifi ++ steps rest

/-- Insert entries one by one until the first that fails: by its own error, or
because its key is already in the map. -/
def runSteps : List Step → IfMap → Option Error × IfMap
  | [], m => (none, m)
  | st :: rest, m =>
    match st.key with
    | .error err => (some err, m)
    | .ok k =>
      if (m.get k).isSome then (some st.duplicate, m)
      else runSteps rest (m.set k st.ifi)

/-- The key and interface of each entry that derives a key. -/
def entriesDone : List Step → List (Bytes × Interface)
  | [] => []
  | st :: rest =>
    (match st.key with
      | .ok k => [(k, st.ifi)]
      | .error _ => []) ++ entriesDone rest

/-- Whether an error is one of the two duplicate-address errors of
`maybeUpdateIfMap` (lines 97 and 118). -/
def Error.isDuplicate : Error → Bool
  | .errorf format (.hw _) => format == "duplicate hardware address %q"
  | .errorf format (.ip _) => format == "duplicate IP address %q"
  | _ => false

/-- The address an IP value denotes: an IPv4-mapped 16-byte value is replaced by
its 4-byte form, any other value stands for itself. -/
def canonicalIP (ip : Bytes) : Bytes :=
  if ip.length = 16 ∧ ip.take 12 = v4InV6Prefix then ip.drop 12 else ip

/-! ## Sample data -/

/-- The loopback interface, with `127.0.0.1/8` (in the 16-byte form in which the
operating system reports it) and `::1/128`. -/
def sampleLo : Interface :=
  { Index := 1, Name := "lo", HardwareAddr := [],
    Addrs := .ok [.IPNet (IPv4 127 0 0 1) [255, 0, 0, 0],
      .IPNet [0, 0, 0, 0, 0, 0, 0, 0, 0, 0, 0, 0, 0, 0, 0, 1]
        [255, 255, 255, 255, 255, 255, 255, 255, 255, 255, 255, 255, 255, 255, 255, 255]] }

/-- An Ethernet interface, with `62:69:67:4d:61:63` and `192.168.1.10/24`, and one
address that is not an IP network. -/
def sampleEth : Interface :=
  { Index := 2, Name := "eth0", HardwareAddr := [0x62, 0x69, 0x67, 0x4d, 0x61, 0x63],
    Addrs := .ok [.other "ip" "192.168.1.10", .IPNet (IPv4 192 168 1 10) [255, 255, 255, 0]] }

/-- An interface whose address listing fails. -/
def sampleGone : Interface :=
  { Index := 3, Name := "tun0", HardwareAddr := [], Addrs := .error (.os 19) }

/-- The operating system reports `lo` and `eth0` at time 5000. -/
def sampleEnv : Env := { now := 5000, Interfaces := .ok [sampleLo, sampleEth] }

/-- Package variables with a table that holds `127.0.0.1`, the hardware address
of `eth0` and an address `10.0.0.1` that `eth0` had earlier, and a deadline that
has passed at time 5000. -/
def sampleWarm : State :=
  { ifmap := [(strM6 ++ [0x62, 0x69, 0x67, 0x4d, 0x61, 0x63], sampleEth),
      (strI4 ++ [10, 0, 0, 1], sampleEth),
      (strI4 ++ [127, 0, 0, 1], sampleLo)],
    MinScanInterval := 100 * 1000000, deadline := 3000 }

/-- The same table, with a deadline that has not passed at time 5000. -/
def sampleThrottled : State := { sampleWarm with deadline := 7000 }

/-- An InfiniBand interface, with a hardware address of 20 bytes. -/
def sampleIb : Interface :=
  { Index := 4, Name := "ib0",
    HardwareAddr := [0x80, 0, 0, 0x48, 0xfe, 0x80, 0, 0, 0, 0, 0, 0, 0, 2, 0xc9, 3, 0, 0x1b,
      0x0d, 0x11],
    Addrs := .ok [] }

/-- A second interface that has `127.0.0.1`, as `lo` does, after `10.1.1.1`. -/
def sampleTwin : Interface :=
  { Index := 5, Name := "dummy0", HardwareAddr := [],
    Addrs := .ok [.IPNet (IPv4 10 1 1 1) [255, 255, 255, 255],
      .IPNet (IPv4 127 0 0 1) [255, 255, 255, 255]] }

/-- The provider fails at time 5000. -/
def sampleDown : Env := { now := 5000, Interfaces := .error (.os 24) }

/-- The operating system reports `eth0`, `lo` and then `dummy0`, whose second
address `lo` has too, at time 5000. -/
def sampleDupEnv : Env := { now := 5000, Interfaces := .ok [sampleEth, sampleLo, sampleTwin] }

/-! ## The tests of the repository, on the model -/

/-- `TestKeyForIPv4`: the key of `net.IPv4(97, 100, 100, 114)` is `"i4addr"`. -/
theorem test_KeyForIPv4 :
    keyForIP (IPv4 97 100 100 114) = .ok [0x69, 0x34, 0x61, 0x64, 0x64, 0x72] := by
  decide

/-- `TestLookupKnownIP`: the first lookup of `127.0.0.1` answers `lo`, after one
call of the provider. -/
theorem test_LookupKnownIP :
    (InterfaceWithIP sampleEnv (IPv4 127 0 0 1) State.initial).ifi = some sampleLo ∧
    (InterfaceWithIP sampleEnv (IPv4 127 0 0 1) State.initial).err = none ∧
    (InterfaceWithIP sampleEnv (IPv4 127 0 0 1) State.initial).calls =
      [Call.Now, Call.Interfaces, Call.Addrs "lo", Call.Addrs "eth0"] := by
  decide

/-- `TestLookupUnknownIP`: the lookup of `127.255.255.255` answers nil, nil. -/
theorem test_LookupUnknownIP :
    (InterfaceWithIP sampleEnv (IPv4 127 255 255 255) State.initial).ifi = none ∧
    (InterfaceWithIP sampleEnv (IPv4 127 255 255 255) State.initial).err = none := by
  decide

/-- `TestLookupKnownMAC`: the lookup of the hardware address of `eth0` answers
`eth0`. -/
theorem test_LookupKnownMAC :
    (InterfaceWithMAC sampleEnv sampleEth.HardwareAddr State.initial).ifi = some sampleEth ∧
    (InterfaceWithMAC sampleEnv sampleEth.HardwareAddr State.initial).err = none := by
  decide

/-! ## Key derivation: lemmas -/

/-- A list of length 4 is made of four elements. -/
theorem length_four {α : Type} (l : List α) (h : l.length = 4) :
    ∃ a b c d, l = [a, b, c, d] := by
  match l, h with
  | [a, b, c, d], _ => exact ⟨a, b, c, d, rfl⟩

/-- The 4-byte form of a 4-byte value is the value itself. -/
theorem To4_of_length_four (ip : Bytes) (h : ip.length = 4) : To4 ip = some ip := by
  simp [To4, IPv4len, h]

/-- A value of neither 4 nor 16 bytes has no 4-byte form. -/
theorem To4_of_other_length (ip : Bytes) (h4 : ip.length ≠ 4) (h16 : ip.length ≠ 16) :
    To4 ip = none := by
  simp [To4, IPv4len, IPv6len, h4, h16]

/-- A value of neither 4 nor 16 bytes has no 16-byte form. -/
theorem To16_of_other_length (ip : Bytes) (h4 : ip.length ≠ 4) (h16 : ip.length ≠ 16) :
    To16 ip = none := by
  simp [To16, IPv4len, IPv6len, h4, h16]

/-- A 16-byte value has a 4-byte form exactly when it starts with the twelve
bytes of the IPv4-in-IPv6 prefix; the form is then its last four bytes. -/
theorem To4_of_length_sixteen (ip : Bytes) (h : ip.length = 16) :
    To4 ip = if ip.take 12 = v4InV6Prefix then some (ip.drop 12) else none := by
  match ip, h with
  | [a0, a1, a2, a3, a4, a5, a6, a7, a8, a9, a10, a11, a12, a13, a14, a15], _ =>
    simp only [To4, IPv4len, IPv6len, isZeros, v4InV6Prefix, List.length_cons, List.length_nil,
      List.take, List.drop, List.all_cons, List.all_nil, List.get?, List.cons.injEq,
      Option.some.injEq, beq_iff_eq, Bool.and_eq_true, Bool.and_true, and_true, true_and]
    split_ifs <;> first | rfl | (exfalso; omega) | (exfalso; tauto)

/-- The key of a 4-byte value is `"i4"` and the value. -/
theorem keyForIP_of_length_four (ip : Bytes) (h : ip.length = 4) :
    keyForIP ip = .ok (strI4 ++ ip) := by
  obtain ⟨a, b, c, d, rfl⟩ := length_four ip h
  simp [keyForIP, To4, IPv4len]

/-- The key of a 16-byte value that starts with the IPv4-in-IPv6 prefix is `"i4"`
and its last four bytes. -/
theorem keyForIP_of_mapped (ip : Bytes) (h : ip.length = 16)
    (hp : ip.take 12 = v4InV6Prefix) : keyForIP ip = .ok (strI4 ++ ip.drop 12) := by
  have ht : (ip.drop 12).take 4 = ip.drop 12 := by
    apply List.take_of_length_le
    simp [h]
  rw [keyForIP, To4_of_length_sixteen ip h, if_pos hp]
  simp [IPv4len, ht]

/-- The key of a value without a 4-byte form, of 16 bytes, is `"i6"` and the value. -/
theorem keyForIP_of_To4_none (ip : Bytes) (h : ip.length = 16) (h4 : To4 ip = none) :
    keyForIP ip = .ok (strI6 ++ ip) := by
  have ht : ip.take 16 = ip := by rw [← h]; exact List.take_length ip
  simp [keyForIP, h4, To16, IPv4len, IPv6len, h, ht]

/-- Every key that `keyForIP` returns starts with `"i4"` and has 6 bytes, or
starts with `"i6"` and has 18 bytes. -/
theorem keyForIP_ok_shape (ip k : Bytes) (h : keyForIP ip = .ok k) :
    (∃ b, k = strI4 ++ b ∧ b.length = 4) ∨ (∃ b, k = strI6 ++ b ∧ b.length = 16) := by
  by_cases h4 : ip.length = 4
  · left
    rw [keyForIP, To4_of_length_four ip h4] at h
    simp only [Except.ok.injEq] at h
    exact ⟨ip.take IPv4len, h.symm, by simp [IPv4len, h4]⟩
  · by_cases h16 : ip.length = 16
    · rw [keyForIP, To4_of_length_sixteen ip h16] at h
      by_cases hp : ip.take 12 = v4InV6Prefix
      · left
        simp only [hp, if_true, Except.ok.injEq] at h
        exact ⟨(ip.drop 12).take IPv4len, h.symm, by simp [IPv4len, h16]⟩
      · right
        have h4n : To4 ip = none := by rw [To4_of_length_sixteen ip h16, if_neg hp]
        have hk := keyForIP_of_To4_none ip h16 h4n
        rw [keyForIP, To4_of_length_sixteen ip h16] at hk
        rw [hk] at h
        simp only [Except.ok.injEq] at h
        exact ⟨ip, h.symm, h16⟩
    · simp [keyForIP, To4_of_other_length ip h4 h16, To16_of_other_length ip h4 h16] at h

/-- Every key that `keyForMAC` returns is `"m6"` and the 6 bytes of the address. -/
theorem keyForMAC_ok_shape (hw k : Bytes) (h : keyForMAC hw = .ok k) :
    k = strM6 ++ hw ∧ hw.length = 6 := by
  unfold keyForMAC at h
  split_ifs at h with h6
  simp only [Except.ok.injEq] at h
  exact ⟨h.symm, h6⟩

/-! ## Key derivation: the claims -/

/-- C1: for every IP value of exactly 4 bytes, `keyForIP` succeeds and returns
the 6-byte string made of `"i4"` followed by those 4 bytes. -/
theorem keyForIP_four_bytes (ip : Bytes) (h : ip.length = 4) :
    keyForIP ip = .ok (strI4 ++ ip) ∧ (strI4 ++ ip).length = 6 := by
  exact ⟨keyForIP_of_length_four ip h, by simp [strI4, h]⟩

/-- Witness of C1 at `127.0.0.1`. -/
theorem keyForIP_four_bytes_witness :
    keyForIP [127, 0, 0, 1] = .ok [0x69, 0x34, 127, 0, 0, 1] :=
  (keyForIP_four_bytes [127, 0, 0, 1] (by decide)).1

/-- C2, as stated, fails: the 16-byte value `::ffff:1.2.3.4` has 16 bytes, and its
key is `"i4"` followed by 1 2 3 4, not `"i6"` followed by the 16 bytes. -/
theorem keyForIP_sixteen_bytes_mapped_counterexample :
    (IPv4 1 2 3 4).length = 16 ∧
    keyForIP (IPv4 1 2 3 4) = .ok (strI4 ++ [1, 2, 3, 4]) ∧
    keyForIP (IPv4 1 2 3 4) ≠ .ok (strI6 ++ IPv4 1 2 3 4) := by
  decide

/-- C2, amended: for every IP value of exactly 16 bytes that does not start with
the twelve bytes of the IPv4-in-IPv6 prefix (ten zero bytes, 0xff, 0xff),
`keyForIP` succeeds and returns the 18-byte string made of `"i6"` followed by
those 16 bytes. -/
theorem keyForIP_sixteen_bytes (ip : Bytes) (h : ip.length = 16)
    (hp : ip.take 12 ≠ v4InV6Prefix) :
    keyForIP ip = .ok (strI6 ++ ip) ∧ (strI6 ++ ip).length = 18 := by
  refine ⟨keyForIP_of_To4_none ip h ?_, by simp [strI6, h]⟩
  rw [To4_of_length_sixteen ip h, if_neg hp]

/-- Witness of C2 amended: the address of `TestKeyForIPv6`,
`7468:6520:4269:6720:4c65:626f:7773:6b69`, whose key is `"i6the Big Lebowski"`. -/
theorem keyForIP_sixteen_bytes_witness :
    keyForIP [0x74, 0x68, 0x65, 0x20, 0x42, 0x69, 0x67, 0x20, 0x4c, 0x65, 0x62, 0x6f, 0x77,
        0x73, 0x6b, 0x69] =
      .ok [0x69, 0x36, 0x74, 0x68, 0x65, 0x20, 0x42, 0x69, 0x67, 0x20, 0x4c, 0x65, 0x62, 0x6f,
        0x77, 0x73, 0x6b, 0x69] :=
  (keyForIP_sixteen_bytes [0x74, 0x68, 0x65, 0x20, 0x42, 0x69, 0x67, 0x20, 0x4c, 0x65, 0x62,
    0x6f, 0x77, 0x73, 0x6b, 0x69] (by decide) (by decide)).1

/-- C3: for all bytes a b c d, the 16-byte IPv4-mapped value (ten zero bytes,
0xff, 0xff, a, b, c, d) has the same key as the 4-byte value a b c d, namely
`"i4"` followed by a b c d. -/
theorem keyForIP_mapped_eq_four_bytes (a b c d : Byte) :
    keyForIP [0, 0, 0, 0, 0, 0, 0, 0, 0, 0, 0xff, 0xff, a, b, c, d] = keyForIP [a, b, c, d] ∧
    keyForIP [a, b, c, d] = .ok (strI4 ++ [a, b, c, d]) := by
  have h4 := keyForIP_of_length_four [a, b, c, d] rfl
  refine ⟨?_, h4⟩
  rw [h4, keyForIP_of_mapped [0, 0, 0, 0, 0, 0, 0, 0, 0, 0, 0xff, 0xff, a, b, c, d] rfl rfl]
  rfl

/-- C4: `keyForMAC` succeeds if and only if the hardware address has exactly 6
bytes; it then returns the 8-byte string made of `"m6"` followed by those 6
bytes; for every other length it fails with the error that carries the
rejected bytes. -/
theorem keyForMAC_iff_six_bytes (hw : Bytes) :
    ((∃ k, keyForMAC hw = .ok k) ↔ hw.length = 6) ∧
    (hw.length = 6 → keyForMAC hw = .ok (strM6 ++ hw) ∧ (strM6 ++ hw).length = 8) ∧
    (hw.length ≠ 6 →
      keyForMAC hw = .error (.errorf "unhandled hardware address %q" (.raw hw))) := by
  refine ⟨⟨?_, ?_⟩, ?_, ?_⟩
  · rintro ⟨k, hk⟩
    exact (keyForMAC_ok_shape hw k hk).2
  · intro h
    exact ⟨strM6 ++ hw, by simp [keyForMAC, h]⟩
  · intro h
    exact ⟨by simp [keyForMAC, h], by simp [strM6, h]⟩
  · intro h
    simp [keyForMAC, h]

/-- Witness of C4: the address of `TestKeyForMAC`, `62:69:67:4d:61:63`, whose key
is `"m6bigMac"`; the 5 bytes `"hello"` of `TestUnsupportedMAC`; and the empty
address. -/
theorem keyForMAC_iff_six_bytes_witness :
    keyForMAC [0x62, 0x69, 0x67, 0x4d, 0x61, 0x63] =
      .ok [0x6d, 0x36, 0x62, 0x69, 0x67, 0x4d, 0x61, 0x63] ∧
    keyForMAC [0x68, 0x65, 0x6c, 0x6c, 0x6f] =
      .error (.errorf "unhandled hardware address %q" (.raw [0x68, 0x65, 0x6c, 0x6c, 0x6f])) ∧
    keyForMAC [] = .error (.errorf "unhandled hardware address %q" (.raw [])) :=
  ⟨((keyForMAC_iff_six_bytes [0x62, 0x69, 0x67, 0x4d, 0x61, 0x63]).2.1 (by decide)).1,
   (keyForMAC_iff_six_bytes [0x68, 0x65, 0x6c, 0x6c, 0x6f]).2.2 (by decide),
   (keyForMAC_iff_six_bytes []).2.2 (by decide)⟩

/-- C5: for every byte sequence whose length is neither 4 nor 16, `keyForIP`
fails with the error that names exactly the input bytes, and `InterfaceWithIP`
on that input returns a nil interface together with that error. -/
theorem keyForIP_unsupported_length (ip : Bytes) (h4 : ip.length ≠ 4) (h16 : ip.length ≠ 16) :
    keyForIP ip = .error (.errorf "unhandled IP address %q" (.raw ip)) ∧
    ∀ (env : Env) (s : State),
      (InterfaceWithIP env ip s).ifi = none ∧
      (InterfaceWithIP env ip s).err = some (.errorf "unhandled IP address %q" (.raw ip)) := by
  have hk : keyForIP ip = .error (.errorf "unhandled IP address %q" (.raw ip)) := by
    simp [keyForIP, To4_of_other_length ip h4 h16, To16_of_other_length ip h4 h16]
  refine ⟨hk, fun env s => ?_⟩
  simp [InterfaceWithIP, hk]

/-- Witness of C5: the 5 bytes `"hello"` of `TestUnsupportedIP`, looked up in the
initial state. -/
theorem keyForIP_unsupported_length_witness :
    keyForIP [0x68, 0x65, 0x6c, 0x6c, 0x6f] =
      .error (.errorf "unhandled IP address %q" (.raw [0x68, 0x65, 0x6c, 0x6c, 0x6f])) ∧
    (InterfaceWithIP ⟨0, .ok []⟩ [0x68, 0x65, 0x6c, 0x6c, 0x6f] State.initial).ifi = none :=
  ⟨(keyForIP_unsupported_length [0x68, 0x65, 0x6c, 0x6c, 0x6f] (by decide) (by decide)).1,
   ((keyForIP_unsupported_length [0x68, 0x65, 0x6c, 0x6c, 0x6f] (by decide) (by decide)).2
      ⟨0, .ok []⟩ State.initial).1⟩

/-- C6: keys of different variants never collide.  A key returned by `keyForIP`
differs from every key returned by `keyForMAC`, and among the keys returned by
`keyForIP` one that begins with `"i4"` differs from one that begins with
`"i6"`. -/
theorem keys_of_different_variants_differ :
    (∀ (ip hw ki km : Bytes), keyForIP ip = .ok ki → keyForMAC hw = .ok km → ki ≠ km) ∧
    (∀ (p q kp kq : Bytes), keyForIP p = .ok kp → keyForIP q = .ok kq →
      strI4 <+: kp → strI6 <+: kq → kp ≠ kq) := by
  constructor
  · intro ip hw ki km hi hm heq
    obtain ⟨rfl, -⟩ := keyForMAC_ok_shape hw km hm
    rcases keyForIP_ok_shape ip ki hi with ⟨b, rfl, -⟩ | ⟨b, rfl, -⟩ <;>
      simp [strI4, strI6, strM6] at heq
  · intro p q kp kq _ _ hp hq heq
    obtain ⟨b, rfl⟩ := hp
    obtain ⟨c, hc⟩ := hq
    rw [← hc] at heq
    simp [strI4, strI6] at heq

/-- Witness of C6: `127.0.0.1`, `::1` and the hardware address `62:69:67:4d:61:63`. -/
theorem keys_of_different_variants_differ_witness :
    strI4 ++ [127, 0, 0, 1] ≠ strM6 ++ [0x62, 0x69, 0x67, 0x4d, 0x61, 0x63] ∧
    strI4 ++ [127, 0, 0, 1] ≠ strI6 ++ [0, 0, 0, 0, 0, 0, 0, 0, 0, 0, 0, 0, 0, 0, 0, 1] :=
  ⟨keys_of_different_variants_differ.1 [127, 0, 0, 1] [0x62, 0x69, 0x67, 0x4d, 0x61, 0x63]
      _ _ (by decide) (by decide),
   keys_of_different_variants_differ.2 [127, 0, 0, 1]
      [0, 0, 0, 0, 0, 0, 0, 0, 0, 0, 0, 0, 0, 0, 0, 1] _ _ (by decide) (by decide)
      (by decide) (by decide)⟩

/-! ## Lookup: the claims -/

/-- A key found in the map is answered from the map. -/
theorem interfaceWithKey_of_found (env : Env) (s : State) (k : Bytes) (ifi : Interface)
    (h : s.ifmap.get k = some ifi) :
    interfaceWithKey env k s = { ifi := some ifi, err := none, state := s, calls := [] } := by
  simp [interfaceWithKey, h]

/-- C7: a call of `InterfaceWithIP` or `InterfaceWithMAC` whose address is
rejected by key derivation returns a nil interface and the error, makes no
call to the outside world (neither the provider nor the clock), and leaves the
package variables, cache and deadline among them, exactly as they were. -/
theorem rejected_address_touches_nothing (env : Env) (s : State) :
    (∀ (ip : Bytes) (e : Error), keyForIP ip = .error e →
      InterfaceWithIP env ip s = { ifi := none, err := some e, state := s, calls := [] }) ∧
    (∀ (hw : Bytes) (e : Error), keyForMAC hw = .error e →
      InterfaceWithMAC env hw s = { ifi := none, err := some e, state := s, calls := [] }) := by
  constructor
  · intro ip e h
    simp [InterfaceWithIP, h]
  · intro hw e h
    simp [InterfaceWithMAC, h]

/-- Witness of C7: the 5 bytes `"hello"` of `TestUnsupportedIP` and
`TestUnsupportedMAC`, with a table in place, the deadline passed and a provider
that would answer. -/
theorem rejected_address_touches_nothing_witness :
    InterfaceWithIP sampleEnv [0x68, 0x65, 0x6c, 0x6c, 0x6f] sampleWarm =
      { ifi := none,
        err := some (.errorf "unhandled IP address %q" (.raw [0x68, 0x65, 0x6c, 0x6c, 0x6f])),
        state := sampleWarm, calls := [] } ∧
    InterfaceWithMAC sampleEnv [0x68, 0x65, 0x6c, 0x6c, 0x6f] sampleWarm =
      { ifi := none,
        err := some (.errorf "unhandled hardware address %q"
          (.raw [0x68, 0x65, 0x6c, 0x6c, 0x6f])),
        state := sampleWarm, calls := [] } :=
  ⟨(rejected_address_touches_nothing sampleEnv sampleWarm).1 _ _ (by decide),
   (rejected_address_touches_nothing sampleEnv sampleWarm).2 _ _ (by decide)⟩

/-- C8, the fast path: when the key is present in the cache, the lookup returns
the interface stored under that key and no error, makes no call to the outside
world whatever the current time and the deadline are, and leaves the package
variables, cache and deadline among them, unchanged.  This holds for
`interfaceWithKey` and for both public lookups whose address derives that key. -/
theorem cached_key_fast_path (env : Env) (s : State) (k : Bytes) (ifi : Interface)
    (h : s.ifmap.get k = some ifi) :
    interfaceWithKey env k s = { ifi := some ifi, err := none, state := s, calls := [] } ∧
    (∀ ip : Bytes, keyForIP ip = .ok k →
      InterfaceWithIP env ip s = { ifi := some ifi, err := none, state := s, calls := [] }) ∧
    (∀ hw : Bytes, keyForMAC hw = .ok k →
      InterfaceWithMAC env hw s = { ifi := some ifi, err := none, state := s, calls := [] }) := by
  have hk := interfaceWithKey_of_found env s k ifi h
  refine ⟨hk, ?_, ?_⟩
  · intro ip hip
    simp [InterfaceWithIP, hip, hk]
  · intro hw hhw
    simp [InterfaceWithMAC, hhw, hk]

/-- Witness of C8: `127.0.0.1` is in the table; the lookup answers `lo` although
the deadline has passed. -/
theorem cached_key_fast_path_witness :
    InterfaceWithIP sampleEnv (IPv4 127 0 0 1) sampleWarm =
      { ifi := some sampleLo, err := none, state := sampleWarm, calls := [] } :=
  (cached_key_fast_path sampleEnv sampleWarm (strI4 ++ [127, 0, 0, 1]) sampleLo
    (by decide)).2.1 (IPv4 127 0 0 1) (by decide)

/-- C9, throttling: when the current time is strictly before the deadline,
`maybeUpdateIfMap` returns success after reading the clock only (the provider is
not called) and leaves the package variables, cache and deadline among them,
unchanged; so the lookup of a key absent from the cache at such a time returns
a nil interface and a nil error. -/
theorem throttled_rebuild_is_skipped (env : Env) (s : State) (h : env.now < s.deadline) :
    maybeUpdateIfMap env s = (none, s, [Call.Now]) ∧
    Call.Interfaces ∉ (maybeUpdateIfMap env s).2.2 ∧
    ∀ k : Bytes, s.ifmap.get k = none →
      interfaceWithKey env k s = { ifi := none, err := none, state := s, calls := [Call.Now] } := by
  have hm : maybeUpdateIfMap env s = (none, s, [Call.Now]) := by
    simp [maybeUpdateIfMap, h]
  refine ⟨hm, by simp [hm], ?_⟩
  intro k hk
  simp [interfaceWithKey, hk, hm]

/-- Witness of C9: at time 5000 with deadline 7000, `192.168.1.10` is not in the
table although `eth0` has it; the lookup answers nil, nil. -/
theorem throttled_rebuild_is_skipped_witness :
    interfaceWithKey sampleEnv (strI4 ++ [192, 168, 1, 10]) sampleThrottled =
      { ifi := none, err := none, state := sampleThrottled, calls := [Call.Now] } :=
  (throttled_rebuild_is_skipped sampleEnv sampleThrottled (by decide)).2.2 _ (by decide)

/-! ## Rebuild: lemmas -/

/-- Reading a map after an assignment. -/
theorem IfMap.get_set (m : IfMap) (k k2 : Bytes) (v : Interface) :
    (m.set k v).get k2 = if k2 = k then some v else m.get k2 := by
  unfold IfMap.set IfMap.get
  by_cases h : k2 = k
  · subst h
    simp [List.lookup]
  · rw [if_neg h]
    have hb : (k2 == k) = false := by simpa using h
    simp only [List.lookup, hb]
    induction m with
    | nil => rfl
    | cons e rest ih =>
      obtain ⟨ek, ev⟩ := e
      by_cases hek : ek = k
      · subst hek
        have hb2 : (k2 == ek) = false := hb
        simp [List.filter, List.lookup, hb2, ih]
      · have hne : (ek != k) = true := by simpa using hek
        simp only [List.filter, hne, List.lookup]
        split
        · rfl
        · exact ih

/-- Nothing added. -/
theorem Extends.nil (m : IfMap) : Extends m m [] :=
  ⟨fun _ _ h => absurd h (List.not_mem_nil _), fun _ _ => rfl⟩

/-- One assignment adds one entry. -/
theorem Extends.single (m : IfMap) (k : Bytes) (v : Interface) :
    Extends m (m.set k v) [(k, v)] := by
  constructor
  · intro k2 v2 h
    simp only [List.mem_singleton, Prod.mk.injEq] at h
    obtain ⟨rfl, rfl⟩ := h
    simp [IfMap.get_set]
  · intro k2 h
    have hne : k2 ≠ k := by simpa [keysOf] using h
    simp [IfMap.get_set, hne]

/-- Additions of disjoint keys compose. -/
theorem Extends.append {m1 m2 m3 : IfMap} {es1 es2 : List (Bytes × Interface)}
    (h12 : Extends m1 m2 es1) (h23 : Extends m2 m3 es2)
    (hd : ∀ k, k ∈ keysOf es1 → k ∉ keysOf es2) : Extends m1 m3 (es1 ++ es2) := by
  constructor
  · intro k v h
    rcases List.mem_append.1 h with h1 | h2
    · have hk : k ∈ keysOf es1 := List.mem_map.2 ⟨(k, v), h1, rfl⟩
      rw [h23.2 k (hd k hk)]
      exact h12.1 k v h1
    · exact h23.1 k v h2
  · intro k h
    have h1 : k ∉ keysOf es1 := fun hk => h (by simp [keysOf] at hk ⊢; tauto)
    have h2 : k ∉ keysOf es2 := fun hk => h (by simp [keysOf] at hk ⊢; tauto)
    rw [h23.2 k h2, h12.2 k h1]

/-- A key that is fresh before an addition and is not added is fresh after it. -/
theorem Extends.fresh {m1 m2 : IfMap} {es : List (Bytes × Interface)} (h : Extends m1 m2 es)
    (k : Bytes) (hk : k ∉ keysOf es) (hf : m1.get k = none) : m2.get k = none := by
  rw [h.2 k hk, hf]

/-- The keys of a concatenation. -/
theorem keysOf_append (es1 es2 : List (Bytes × Interface)) :
    keysOf (es1 ++ es2) = keysOf es1 ++ keysOf es2 := by
  simp [keysOf]

/-- Key derivation succeeds on every IP value of 4 or 16 bytes. -/
theorem keyForIP_ok_of_length (ip : Bytes) (h : ip.length = 4 ∨ ip.length = 16) :
    ∃ k, keyForIP ip = .ok k := by
  rcases h with h | h
  · exact ⟨_, keyForIP_of_length_four ip h⟩
  · by_cases hp : ip.take 12 = v4InV6Prefix
    · exact ⟨_, keyForIP_of_mapped ip h hp⟩
    · exact ⟨_, keyForIP_of_To4_none ip h (by rw [To4_of_length_sixteen ip h, if_neg hp])⟩

/-- The hardware-address step on an interface whose hardware address has 0 or 6
bytes and whose MAC key is fresh: no error, and the MAC entry is added. -/
theorem putHardwareAddr_ok (ifi : Interface) (m : IfMap)
    (hlen : ifi.HardwareAddr.length = 0 ∨ ifi.HardwareAddr.length = 6)
    (hfresh : ∀ k, k ∈ keysOf (macEntries ifi) → m.get k = none) :
    ∃ m2, putHardwareAddr ifi m = (none, m2) ∧ Extends m m2 (macEntries ifi) := by
  rcases hlen with h0 | h6
  · refine ⟨m, by simp [putHardwareAddr, h0], ?_⟩
    have : macEntries ifi = [] := by simp [macEntries, h0]
    rw [this]
    exact Extends.nil m
  · have hk : keyForMAC ifi.HardwareAddr = .ok (strM6 ++ ifi.HardwareAddr) := by
      simp [keyForMAC, h6]
    have he : macEntries ifi = [(strM6 ++ ifi.HardwareAddr, ifi)] := by
      simp [macEntries, h6, hk]
    have hf : m.get (strM6 ++ ifi.HardwareAddr) = none :=
      hfresh _ (by simp [he, keysOf])
    refine ⟨m.set (strM6 ++ ifi.HardwareAddr) ifi, by simp [putHardwareAddr, h6, hk, hf], ?_⟩
    rw [he]
    exact Extends.single m _ ifi

/-- The address loop on addresses whose IP values have 4 or 16 bytes and whose
keys are pairwise distinct and fresh: no error, and the IP entries are added. -/
theorem rangeAddrs_ok (ifi : Interface) (addrs : List Addr) :
    ∀ m : IfMap,
      (∀ ip mask, Addr.IPNet ip mask ∈ addrs → ip.length = 4 ∨ ip.length = 16) →
      (keysOf (ipEntries ifi addrs)).Nodup →
      (∀ k, k ∈ keysOf (ipEntries ifi addrs) → m.get k = none) →
      ∃ m2, rangeAddrs ifi addrs m = (none, m2) ∧ Extends m m2 (ipEntries ifi addrs) := by
  induction addrs with
  | nil =>
    intro m _ _ _
    exact ⟨m, rfl, Extends.nil m⟩
  | cons a rest ih =>
    intro m hlen hnd hfresh
    cases a with
    | other network text =>
      have hlen2 : ∀ ip mask, Addr.IPNet ip mask ∈ rest → ip.length = 4 ∨ ip.length = 16 :=
        fun ip mask h => hlen ip mask (List.mem_cons_of_mem _ h)
      simpa [rangeAddrs, ipEntries] using ih m hlen2 hnd hfresh
    | IPNet ip mask =>
      obtain ⟨k, hk⟩ := keyForIP_ok_of_length ip (hlen ip mask (List.mem_cons_self _ _))
      have he : ipEntries ifi (Addr.IPNet ip mask :: rest) = [(k, ifi)] ++ ipEntries ifi rest := by
        simp [ipEntries, hk]
      rw [he, keysOf_append] at hnd hfresh
      rw [he]
      have hnd2 := List.nodup_append.1 hnd
      have hf : m.get k = none := hfresh k (by simp [keysOf])
      have hlen2 : ∀ ip mask, Addr.IPNet ip mask ∈ rest → ip.length = 4 ∨ ip.length = 16 :=
        fun ip mask h => hlen ip mask (List.mem_cons_of_mem _ h)
      have hdisj : ∀ k2, k2 ∈ keysOf [(k, ifi)] → k2 ∉ keysOf (ipEntries ifi rest) :=
        fun k2 h1 h2 => hnd2.2.2 h1 h2
      have hfresh2 : ∀ k2, k2 ∈ keysOf (ipEntries ifi rest) → (m.set k ifi).get k2 = none := by
        intro k2 h2
        have hne : k2 ≠ k := fun e => hdisj k (by simp [keysOf]) (e ▸ h2)
        rw [IfMap.get_set, if_neg hne]
        exact hfresh k2 (List.mem_append_right _ h2)
      obtain ⟨m2, hrun, hext⟩ := ih (m.set k ifi) hlen2 hnd2.2.1 hfresh2
      refine ⟨m2, by simp [rangeAddrs, hk, hf, hrun], ?_⟩
      exact Extends.append (Extends.single m k ifi) hext hdisj

/-- The interface loop on a provider list that meets the conditions of C10 and
whose keys are fresh: no error, and the derived entries are added. -/
theorem rangeIfs_ok (L : List Interface) :
    ∀ (m : IfMap) (cs : List Call),
      (∀ ifi ∈ L, ifi.HardwareAddr.length = 0 ∨ ifi.HardwareAddr.length = 6) →
      (∀ ifi ∈ L, ∃ addrs, ifi.Addrs = .ok addrs) →
      (∀ ifi ∈ L, ∀ ip mask, Addr.IPNet ip mask ∈ ifi.addrList →
        ip.length = 4 ∨ ip.length = 16) →
      (keysOf (derivedEntries L)).Nodup →
      (∀ k, k ∈ keysOf (derivedEntries L) → m.get k = none) →
      ∃ m2 cs2, rangeIfs L m cs = (none, m2, cs2) ∧ Extends m m2 (derivedEntries L) := by
  induction L with
  | nil =>
    intro m cs _ _ _ _ _
    exact ⟨m, cs, rfl, Extends.nil m⟩
  | cons ifi rest ih =>
    intro m cs hhw haddrs hip hnd hfresh
    simp only [derivedEntries, entriesOf, keysOf_append] at hnd hfresh
    have hnd1 := List.nodup_append.1 hnd
    have hnd2 := List.nodup_append.1 hnd1.1
    -- the hardware address
    obtain ⟨m1, hrun1, hext1⟩ := putHardwareAddr_ok ifi m (hhw ifi (List.mem_cons_self _ _))
      (fun k hk => hfresh k (List.mem_append_left _ (List.mem_append_left _ hk)))
    -- the addresses
    obtain ⟨addrs, hok⟩ := haddrs ifi (List.mem_cons_self _ _)
    have hal : ifi.addrList = addrs := by simp [Interface.addrList, hok]
    have hdisj1 : ∀ k, k ∈ keysOf (macEntries ifi) → k ∉ keysOf (ipEntries ifi ifi.addrList) :=
      fun k h1 h2 => hnd2.2.2 h1 h2
    have hfresh1 : ∀ k, k ∈ keysOf (ipEntries ifi ifi.addrList) → m1.get k = none :=
      fun k hk => hext1.fresh k (fun h1 => hdisj1 k h1 hk)
        (hfresh k (List.mem_append_left _ (List.mem_append_right _ hk)))
    obtain ⟨m2, hrun2, hext2⟩ := rangeAddrs_ok ifi ifi.addrList m1
      (hip ifi (List.mem_cons_self _ _)) hnd2.2.1 hfresh1
    have hext12 : Extends m m2 (macEntries ifi ++ ipEntries ifi ifi.addrList) :=
      hext1.append hext2 hdisj1
    -- the other interfaces
    have hdisj2 : ∀ k, k ∈ keysOf (macEntries ifi ++ ipEntries ifi ifi.addrList) →
        k ∉ keysOf (derivedEntries rest) := by
      intro k h1 h2
      rw [keysOf_append] at h1
      exact hnd1.2.2 h1 h2
    have hfresh2 : ∀ k, k ∈ keysOf (derivedEntries rest) → m2.get k = none :=
      fun k hk => hext12.fresh k (fun h1 => hdisj2 k h1 hk)
        (hfresh k (List.mem_append_right _ hk))
    obtain ⟨m3, cs3, hrun3, hext3⟩ := ih m2 (cs ++ [Call.Addrs ifi.Name])
      (fun i hi => hhw i (List.mem_cons_of_mem _ hi))
      (fun i hi => haddrs i (List.mem_cons_of_mem _ hi))
      (fun i hi => hip i (List.mem_cons_of_mem _ hi)) hnd1.2.1 hfresh2
    rw [hal] at hrun2
    refine ⟨m3, cs3, by simp [rangeIfs, hrun1, hok, hrun2, hrun3], ?_⟩
    simp only [derivedEntries, entriesOf]
    exact hext12.append hext3 hdisj2

/-- The derived entries of a member of the list are derived entries of the list. -/
theorem entriesOf_subset_derivedEntries (L : List Interface) (ifi : Interface) (h : ifi ∈ L)
    (e : Bytes × Interface) (he : e ∈ entriesOf ifi) : e ∈ derivedEntries L := by
  induction L with
  | nil => exact absurd h (List.not_mem_nil _)
  | cons i rest ih =>
    simp only [derivedEntries]
    rcases List.mem_cons.1 h with rfl | h2
    · exact List.mem_append_left _ he
    · exact List.mem_append_right _ (ih h2)

/-- The key of an IP-network address among `addrs` is among the IP entries. -/
theorem mem_ipEntries (ifi : Interface) (addrs : List Addr) (ip mask k : Bytes)
    (h : Addr.IPNet ip mask ∈ addrs) (hk : keyForIP ip = .ok k) :
    (k, ifi) ∈ ipEntries ifi addrs := by
  induction addrs with
  | nil => exact absurd h (List.not_mem_nil _)
  | cons a rest ih =>
    rcases List.mem_cons.1 h with rfl | h2
    · simp [ipEntries, hk]
    · cases a with
      | other network text => simpa [ipEntries] using ih h2
      | IPNet ip2 mask2 =>
        simp only [ipEntries]
        exact List.mem_append_right _ (ih h2)

/-- A rebuild that is due, on a provider list that meets the conditions of C10:
no error, and the new map holds exactly the derived entries. -/
theorem maybeUpdateIfMap_ok (env : Env) (s : State) (L : List Interface)
    (hprov : env.Interfaces = .ok L) (hdue : ¬ env.now < s.deadline)
    (hhw : ∀ ifi ∈ L, ifi.HardwareAddr.length = 0 ∨ ifi.HardwareAddr.length = 6)
    (haddrs : ∀ ifi ∈ L, ∃ addrs, ifi.Addrs = .ok addrs)
    (hip : ∀ ifi ∈ L, ∀ addrs, ifi.Addrs = .ok addrs →
      ∀ ip mask, Addr.IPNet ip mask ∈ addrs → ip.length = 4 ∨ ip.length = 16)
    (hnd : (keysOf (derivedEntries L)).Nodup) :
    (maybeUpdateIfMap env s).1 = none ∧
    Extends [] (maybeUpdateIfMap env s).2.1.ifmap (derivedEntries L) := by
  have hip2 : ∀ ifi ∈ L, ∀ ip mask, Addr.IPNet ip mask ∈ ifi.addrList →
      ip.length = 4 ∨ ip.length = 16 := by
    intro ifi hi ip mask hm
    obtain ⟨addrs, hok⟩ := haddrs ifi hi
    have hal : ifi.addrList = addrs := by simp [Interface.addrList, hok]
    rw [hal] at hm
    exact hip ifi hi addrs hok ip mask hm
  obtain ⟨m2, cs2, hrun, hext⟩ := rangeIfs_ok L [] [Call.Now, Call.Interfaces] hhw haddrs hip2 hnd
    (fun _ _ => rfl)
  have hm : maybeUpdateIfMap env s =
      (none, { s with ifmap := m2, deadline := env.now + s.MinScanInterval }, cs2) := by
    simp [maybeUpdateIfMap, hdue, hprov, hrun]
  rw [hm]
  exact ⟨rfl, hext⟩

/-! ## Rebuild: the claims -/

/-- C10, as stated, fails: the provider list made of one interface without
hardware address whose address listing fails meets every condition of the
claim (all hardware addresses have 0 bytes, there is no IP-network address, no
two derived keys are equal) and the rebuild is due, yet the rebuild returns the
error of the address listing. -/
theorem due_rebuild_addrs_failure_counterexample :
    (∀ ifi ∈ [sampleGone], ifi.HardwareAddr.length = 0 ∨ ifi.HardwareAddr.length = 6) ∧
    (∀ ifi ∈ [sampleGone], ∀ addrs, ifi.Addrs = .ok addrs →
      ∀ ip mask, Addr.IPNet ip mask ∈ addrs → ip.length = 4 ∨ ip.length = 16) ∧
    (keysOf (derivedEntries [sampleGone])).Nodup ∧
    ¬ (5000 : Int) < sampleWarm.deadline ∧
    (maybeUpdateIfMap { now := 5000, Interfaces := .ok [sampleGone] } sampleWarm).1 =
      some (.os 19) := by
  refine ⟨by decide, ?_, by decide, by decide, by decide⟩
  intro ifi hi addrs hok
  rw [List.mem_singleton.1 hi] at hok
  simp [sampleGone] at hok

/-- C10, amended: for every provider list in which every hardware address has 0
or 6 bytes, every address listing succeeds, every IP-network address has an IP
of 4 or 16 bytes, and the derived keys are pairwise distinct, a rebuild that is
due succeeds; the map afterwards holds each derived key with the interface it
was derived from and no other key (no entry of the previous map survives); so
afterwards the lookup of any hardware address or IP of the list returns the
interface the provider reported it for. -/
theorem due_rebuild_publishes_derived_keys (env : Env) (s : State) (L : List Interface)
    (hprov : env.Interfaces = .ok L) (hdue : ¬ env.now < s.deadline)
    (hhw : ∀ ifi ∈ L, ifi.HardwareAddr.length = 0 ∨ ifi.HardwareAddr.length = 6)
    (haddrs : ∀ ifi ∈ L, ∃ addrs, ifi.Addrs = .ok addrs)
    (hip : ∀ ifi ∈ L, ∀ addrs, ifi.Addrs = .ok addrs →
      ∀ ip mask, Addr.IPNet ip mask ∈ addrs → ip.length = 4 ∨ ip.length = 16)
    (hnd : (keysOf (derivedEntries L)).Nodup) :
    (maybeUpdateIfMap env s).1 = none ∧
    (∀ k ifi, (k, ifi) ∈ derivedEntries L →
      (maybeUpdateIfMap env s).2.1.ifmap.get k = some ifi) ∧
    (∀ k, k ∉ keysOf (derivedEntries L) → (maybeUpdateIfMap env s).2.1.ifmap.get k = none) ∧
    (∀ ifi ∈ L, ifi.HardwareAddr ≠ [] →
      (strM6 ++ ifi.HardwareAddr, ifi) ∈ derivedEntries L ∧
      ∀ env2 : Env,
        (InterfaceWithMAC env2 ifi.HardwareAddr (maybeUpdateIfMap env s).2.1).ifi = some ifi) ∧
    (∀ ifi ∈ L, ∀ addrs, ifi.Addrs = .ok addrs → ∀ ip mask, Addr.IPNet ip mask ∈ addrs →
      (∃ k, keyForIP ip = .ok k ∧ (k, ifi) ∈ derivedEntries L) ∧
      ∀ env2 : Env, (InterfaceWithIP env2 ip (maybeUpdateIfMap env s).2.1).ifi = some ifi) := by
  obtain ⟨hnone, hext⟩ := maybeUpdateIfMap_ok env s L hprov hdue hhw haddrs hip hnd
  refine ⟨hnone, hext.1, fun k hk => hext.2 k hk, ?_, ?_⟩
  · intro ifi hi hne
    have h6 : ifi.HardwareAddr.length = 6 := by
      rcases hhw ifi hi with h0 | h6
      · exact absurd (List.length_eq_zero.1 h0) hne
      · exact h6
    have hk : keyForMAC ifi.HardwareAddr = .ok (strM6 ++ ifi.HardwareAddr) := by
      simp [keyForMAC, h6]
    have hmem : (strM6 ++ ifi.HardwareAddr, ifi) ∈ derivedEntries L := by
      apply entriesOf_subset_derivedEntries L ifi hi
      simp [entriesOf, macEntries, h6, hk]
    refine ⟨hmem, fun env2 => ?_⟩
    simp [InterfaceWithMAC, hk, interfaceWithKey_of_found env2 _ _ ifi (hext.1 _ _ hmem)]
  · intro ifi hi addrs hok ip mask hm
    obtain ⟨k, hk⟩ := keyForIP_ok_of_length ip (hip ifi hi addrs hok ip mask hm)
    have hal : ifi.addrList = addrs := by simp [Interface.addrList, hok]
    have hmem : (k, ifi) ∈ derivedEntries L := by
      apply entriesOf_subset_derivedEntries L ifi hi
      rw [entriesOf, hal]
      exact List.mem_append_right _ (mem_ipEntries ifi addrs ip mask k hm hk)
    refine ⟨⟨k, hk, hmem⟩, fun env2 => ?_⟩
    simp [InterfaceWithIP, hk, interfaceWithKey_of_found env2 _ _ ifi (hext.1 _ _ hmem)]

/-- Witness of C10 amended: the provider reports `lo` and `eth0`, the deadline has
passed.  The rebuild succeeds, `192.168.1.10` (not in the table before) now
answers `eth0`, the hardware address of `eth0` answers `eth0`, and `10.0.0.1`
(in the table before, not reported by the provider) is gone. -/
theorem due_rebuild_publishes_derived_keys_witness :
    (maybeUpdateIfMap sampleEnv sampleWarm).1 = none ∧
    (maybeUpdateIfMap sampleEnv sampleWarm).2.1.ifmap.get (strI4 ++ [192, 168, 1, 10]) =
      some sampleEth ∧
    sampleWarm.ifmap.get (strI4 ++ [10, 0, 0, 1]) = some sampleEth ∧
    (maybeUpdateIfMap sampleEnv sampleWarm).2.1.ifmap.get (strI4 ++ [10, 0, 0, 1]) = none ∧
    (InterfaceWithMAC sampleEnv [0x62, 0x69, 0x67, 0x4d, 0x61, 0x63]
      (maybeUpdateIfMap sampleEnv sampleWarm).2.1).ifi = some sampleEth := by
  have hhw : ∀ ifi ∈ [sampleLo, sampleEth],
      ifi.HardwareAddr.length = 0 ∨ ifi.HardwareAddr.length = 6 := by decide
  have haddrs : ∀ ifi ∈ [sampleLo, sampleEth], ∃ addrs, ifi.Addrs = .ok addrs := by
    intro ifi hi
    simp only [List.mem_cons, List.mem_singleton, List.not_mem_nil, or_false] at hi
    rcases hi with rfl | rfl
    · exact ⟨_, rfl⟩
    · exact ⟨_, rfl⟩
  have hip : ∀ ifi ∈ [sampleLo, sampleEth], ∀ addrs, ifi.Addrs = .ok addrs →
      ∀ ip mask, Addr.IPNet ip mask ∈ addrs → ip.length = 4 ∨ ip.length = 16 := by
    intro ifi hi addrs hok ip mask hm
    simp only [List.mem_cons, List.mem_singleton, List.not_mem_nil, or_false] at hi
    rcases hi with rfl | rfl
    · simp only [sampleLo, Except.ok.injEq] at hok
      subst hok
      simp only [List.mem_cons, Addr.IPNet.injEq, List.not_mem_nil, or_false] at hm
      rcases hm with ⟨rfl, -⟩ | ⟨rfl, -⟩ <;> decide
    · simp only [sampleEth, Except.ok.injEq] at hok
      subst hok
      simp only [List.mem_cons, Addr.IPNet.injEq, List.not_mem_nil, or_false] at hm
      rcases hm with hm | ⟨rfl, -⟩
      · exact absurd hm (by simp)
      · decide
  have h := due_rebuild_publishes_derived_keys sampleEnv sampleWarm [sampleLo, sampleEth] rfl
    (by decide) hhw haddrs hip (by decide)
  exact ⟨h.1, h.2.1 _ _ (by decide), by decide, h.2.2.1 _ (by decide),
    (h.2.2.2.1 sampleEth (by decide) (by decide)).2 sampleEnv⟩

/-! ## Rebuild and lookup, case by case: lemmas -/

/-- The interface loop only adds calls after those already made. -/
theorem rangeIfs_calls (L : List Interface) :
    ∀ (m : IfMap) (cs : List Call), ∃ extra, (rangeIfs L m cs).2.2 = cs ++ extra := by
  induction L with
  | nil =>
    intro m cs
    exact ⟨[], by simp [rangeIfs]⟩
  | cons ifi rest ih =>
    intro m cs
    rcases hp : putHardwareAddr ifi m with ⟨_ | e1, m1⟩
    · rcases ha : ifi.Addrs with e2 | addrs
      · exact ⟨[Call.Addrs ifi.Name], by simp [rangeIfs, hp, ha]⟩
      · rcases hr : rangeAddrs ifi addrs m1 with ⟨_ | e3, m2⟩
        · obtain ⟨extra, hex⟩ := ih m2 (cs ++ [Call.Addrs ifi.Name])
          exact ⟨Call.Addrs ifi.Name :: extra, by simp [rangeIfs, hp, ha, hr, hex]⟩
        · exact ⟨[Call.Addrs ifi.Name], by simp [rangeIfs, hp, ha, hr]⟩
    · exact ⟨[], by simp [rangeIfs, hp]⟩

/-- A rebuild before the deadline. -/
theorem maybeUpdateIfMap_of_before (env : Env) (s : State) (h : env.now < s.deadline) :
    maybeUpdateIfMap env s = (none, s, [Call.Now]) := by
  simp [maybeUpdateIfMap, h]

/-- A due rebuild whose provider call fails. -/
theorem maybeUpdateIfMap_of_provider_error (env : Env) (s : State) (e : Error)
    (hdue : ¬ env.now < s.deadline) (hprov : env.Interfaces = .error e) :
    maybeUpdateIfMap env s = (some e, s, [Call.Now, Call.Interfaces]) := by
  simp [maybeUpdateIfMap, hdue, hprov]

/-- A due rebuild whose provider call succeeds: the error is the one of the
interface loop, the map is the one the loop leaves, starting from the empty
map, and the deadline moves exactly when there is no error. -/
theorem maybeUpdateIfMap_of_list (env : Env) (s : State) (L : List Interface)
    (hdue : ¬ env.now < s.deadline) (hprov : env.Interfaces = .ok L) :
    (maybeUpdateIfMap env s).1 = (rangeIfs L [] [Call.Now, Call.Interfaces]).1 ∧
    (maybeUpdateIfMap env s).2.1.ifmap = (rangeIfs L [] [Call.Now, Call.Interfaces]).2.1 ∧
    (maybeUpdateIfMap env s).2.1.MinScanInterval = s.MinScanInterval ∧
    (maybeUpdateIfMap env s).2.1.deadline =
      (if (rangeIfs L [] [Call.Now, Call.Interfaces]).1 = none then
        env.now + s.MinScanInterval else s.deadline) ∧
    (maybeUpdateIfMap env s).2.2 = (rangeIfs L [] [Call.Now, Call.Interfaces]).2.2 := by
  rcases hr : rangeIfs L [] [Call.Now, Call.Interfaces] with ⟨_ | e, m, cs⟩ <;>
    simp [maybeUpdateIfMap, hdue, hprov, hr]

/-- A due rebuild reads the clock and then calls the provider. -/
theorem maybeUpdateIfMap_calls_of_due (env : Env) (s : State) (hdue : ¬ env.now < s.deadline) :
    ∃ extra, (maybeUpdateIfMap env s).2.2 = Call.Now :: Call.Interfaces :: extra := by
  rcases hprov : env.Interfaces with e | L
  · exact ⟨[], by rw [maybeUpdateIfMap_of_provider_error env s e hdue hprov]⟩
  · obtain ⟨extra, hex⟩ := rangeIfs_calls L [] [Call.Now, Call.Interfaces]
    exact ⟨extra, by rw [(maybeUpdateIfMap_of_list env s L hdue hprov).2.2.2.2, hex]; rfl⟩

/-- A rebuild that fails leaves the deadline and the interval as they were. -/
theorem maybeUpdateIfMap_error_frame (env : Env) (s : State) (e : Error)
    (h : (maybeUpdateIfMap env s).1 = some e) :
    (maybeUpdateIfMap env s).2.1.deadline = s.deadline ∧
    (maybeUpdateIfMap env s).2.1.MinScanInterval = s.MinScanInterval ∧
    ¬ env.now < s.deadline := by
  by_cases hdue : env.now < s.deadline
  · rw [maybeUpdateIfMap_of_before env s hdue] at h
    exact absurd h (by simp)
  · rcases hprov : env.Interfaces with e2 | L
    · rw [maybeUpdateIfMap_of_provider_error env s e2 hdue hprov]
      exact ⟨rfl, rfl, hdue⟩
    · obtain ⟨h1, -, h3, h4, -⟩ := maybeUpdateIfMap_of_list env s L hdue hprov
      rw [h1] at h
      rw [h4, h3, h]
      exact ⟨by simp, rfl, hdue⟩

/-- The lookup of a key that is not in the map is decided by the rebuild. -/
theorem interfaceWithKey_of_absent (env : Env) (s : State) (k : Bytes)
    (h : s.ifmap.get k = none) :
    (interfaceWithKey env k s).err = (maybeUpdateIfMap env s).1 ∧
    (interfaceWithKey env k s).state = (maybeUpdateIfMap env s).2.1 ∧
    (interfaceWithKey env k s).calls = (maybeUpdateIfMap env s).2.2 ∧
    (interfaceWithKey env k s).ifi =
      (if (maybeUpdateIfMap env s).1 = none then (maybeUpdateIfMap env s).2.1.ifmap.get k
        else none) := by
  rcases hr : maybeUpdateIfMap env s with ⟨_ | e, s1, cs⟩ <;> simp [interfaceWithKey, h, hr]

/-- The lookup of a key that is not in the map, when a rebuild is due, calls
the provider. -/
theorem interfaceWithKey_calls_provider (env : Env) (s : State) (k : Bytes)
    (h : s.ifmap.get k = none) (hdue : ¬ env.now < s.deadline) :
    Call.Interfaces ∈ (interfaceWithKey env k s).calls := by
  obtain ⟨extra, hex⟩ := maybeUpdateIfMap_calls_of_due env s hdue
  rw [(interfaceWithKey_of_absent env s k h).2.2.1, hex]
  simp

/-! ## Deadline and errors: the claims -/

/-- C11: a rebuild that is performed (the current time is not before the
deadline) and succeeds leaves the deadline at the current time plus
`MinScanInterval`; the current time is the one read first, before the provider
is called, and the interval itself is unchanged. -/
theorem performed_rebuild_sets_deadline (env : Env) (s : State)
    (hdue : ¬ env.now < s.deadline) (hok : (maybeUpdateIfMap env s).1 = none) :
    (maybeUpdateIfMap env s).2.1.deadline = env.now + s.MinScanInterval ∧
    (maybeUpdateIfMap env s).2.1.MinScanInterval = s.MinScanInterval ∧
    ∃ extra, (maybeUpdateIfMap env s).2.2 = Call.Now :: Call.Interfaces :: extra := by
  refine ⟨?_, ?_, maybeUpdateIfMap_calls_of_due env s hdue⟩
  · rcases hprov : env.Interfaces with e | L
    · rw [maybeUpdateIfMap_of_provider_error env s e hdue hprov] at hok
      exact absurd hok (by simp)
    · obtain ⟨h1, -, -, h4, -⟩ := maybeUpdateIfMap_of_list env s L hdue hprov
      rw [h1] at hok
      rw [h4, if_pos hok]
  · rcases hprov : env.Interfaces with e | L
    · rw [maybeUpdateIfMap_of_provider_error env s e hdue hprov]
    · exact (maybeUpdateIfMap_of_list env s L hdue hprov).2.2.1

/-- Witness of C11: at time 5000 with deadline 3000 and an interval of 100 ms,
the rebuild succeeds and the deadline becomes 100005000. -/
theorem performed_rebuild_sets_deadline_witness :
    (maybeUpdateIfMap sampleEnv sampleWarm).1 = none ∧
    (maybeUpdateIfMap sampleEnv sampleWarm).2.1.deadline = 100005000 :=
  ⟨by decide,
   (performed_rebuild_sets_deadline sampleEnv sampleWarm (by decide) (by decide)).1⟩

/-- C12: when a rebuild is due and the provider call fails, the rebuild returns
exactly the error of the provider and leaves the package variables, cache and
deadline among them, unchanged; the lookup of an absent key that triggered it
returns a nil interface with that error; and the next lookup of that key, at
any time that is not earlier, calls the provider again. -/
theorem provider_failure_keeps_state (env : Env) (s : State) (e : Error)
    (hdue : ¬ env.now < s.deadline) (hprov : env.Interfaces = .error e) :
    maybeUpdateIfMap env s = (some e, s, [Call.Now, Call.Interfaces]) ∧
    ∀ k : Bytes, s.ifmap.get k = none →
      interfaceWithKey env k s =
        { ifi := none, err := some e, state := s, calls := [Call.Now, Call.Interfaces] } ∧
      ∀ env2 : Env, env.now ≤ env2.now →
        Call.Interfaces ∈ (interfaceWithKey env2 k (interfaceWithKey env k s).state).calls := by
  have hm := maybeUpdateIfMap_of_provider_error env s e hdue hprov
  refine ⟨hm, fun k hk => ?_⟩
  have hl : interfaceWithKey env k s =
      { ifi := none, err := some e, state := s, calls := [Call.Now, Call.Interfaces] } := by
    simp [interfaceWithKey, hk, hm]
  refine ⟨hl, fun env2 hle => ?_⟩
  rw [hl]
  exact interfaceWithKey_calls_provider env2 s k hk (by omega)

/-- Witness of C12: the provider fails at time 5000; `192.168.1.10` is not in the
table; the lookup returns the error of the provider and changes nothing, and
the same lookup at the same time, the provider answering, calls it again. -/
theorem provider_failure_keeps_state_witness :
    interfaceWithKey sampleDown (strI4 ++ [192, 168, 1, 10]) sampleWarm =
      { ifi := none, err := some (.os 24), state := sampleWarm,
        calls := [Call.Now, Call.Interfaces] } ∧
    Call.Interfaces ∈ (interfaceWithKey sampleEnv (strI4 ++ [192, 168, 1, 10])
      (interfaceWithKey sampleDown (strI4 ++ [192, 168, 1, 10]) sampleWarm).state).calls :=
  ⟨((provider_failure_keeps_state sampleDown sampleWarm (.os 24) (by decide) rfl).2
      (strI4 ++ [192, 168, 1, 10]) (by decide)).1,
   ((provider_failure_keeps_state sampleDown sampleWarm (.os 24) (by decide) rfl).2
      (strI4 ++ [192, 168, 1, 10]) (by decide)).2 sampleEnv (by decide)⟩

/-- C15: a rebuild that returns an error, of any kind, leaves the deadline as it
was before the call. -/
theorem failed_rebuild_keeps_deadline (env : Env) (s : State) (e : Error)
    (h : (maybeUpdateIfMap env s).1 = some e) :
    (maybeUpdateIfMap env s).2.1.deadline = s.deadline :=
  (maybeUpdateIfMap_error_frame env s e h).1

/-- Witness of C15, one rebuild for each kind of error: the provider fails; the
address listing of `tun0` fails; `dummy0` has an address that `lo` has; `ib0`
has a hardware address of 20 bytes.  The deadline stays at 3000. -/
theorem failed_rebuild_keeps_deadline_witness :
    (maybeUpdateIfMap sampleDown sampleWarm).2.1.deadline = 3000 ∧
    (maybeUpdateIfMap ⟨5000, .ok [sampleLo, sampleGone]⟩ sampleWarm).2.1.deadline = 3000 ∧
    (maybeUpdateIfMap sampleDupEnv sampleWarm).2.1.deadline = 3000 ∧
    (maybeUpdateIfMap ⟨5000, .ok [sampleLo, sampleIb]⟩ sampleWarm).2.1.deadline = 3000 :=
  ⟨failed_rebuild_keeps_deadline sampleDown sampleWarm (.os 24) (by decide),
   failed_rebuild_keeps_deadline ⟨5000, .ok [sampleLo, sampleGone]⟩ sampleWarm (.os 19)
     (by decide),
   failed_rebuild_keeps_deadline sampleDupEnv sampleWarm
     (.errorf "duplicate IP address %q" (.ip (IPv4 127 0 0 1))) (by decide),
   failed_rebuild_keeps_deadline ⟨5000, .ok [sampleLo, sampleIb]⟩ sampleWarm
     (.errorf "unhandled hardware address %q" (.raw sampleIb.HardwareAddr)) (by decide)⟩

/-- C16: "not found" is never an error.  For a key that is absent from the
cache, if the rebuild step is throttled or succeeds and the key is still absent
afterwards, the lookup (by key, and by any IP or hardware address that derives
the key) returns a nil interface and a nil error; and a lookup returns an error
only when key derivation fails with it, or a rebuild is performed and fails
with it. -/
theorem not_found_is_not_an_error (env : Env) (s : State) :
    (∀ k : Bytes, s.ifmap.get k = none →
      (env.now < s.deadline ∨ (maybeUpdateIfMap env s).1 = none) →
      (maybeUpdateIfMap env s).2.1.ifmap.get k = none →
      ((interfaceWithKey env k s).ifi = none ∧ (interfaceWithKey env k s).err = none) ∧
      (∀ ip : Bytes, keyForIP ip = .ok k →
        (InterfaceWithIP env ip s).ifi = none ∧ (InterfaceWithIP env ip s).err = none) ∧
      (∀ hw : Bytes, keyForMAC hw = .ok k →
        (InterfaceWithMAC env hw s).ifi = none ∧ (InterfaceWithMAC env hw s).err = none)) ∧
    (∀ (ip : Bytes) (e : Error), (InterfaceWithIP env ip s).err = some e →
      keyForIP ip = .error e ∨
      (∃ k, keyForIP ip = .ok k ∧ s.ifmap.get k = none ∧ ¬ env.now < s.deadline ∧
        (maybeUpdateIfMap env s).1 = some e)) ∧
    (∀ (hw : Bytes) (e : Error), (InterfaceWithMAC env hw s).err = some e →
      keyForMAC hw = .error e ∨
      (∃ k, keyForMAC hw = .ok k ∧ s.ifmap.get k = none ∧ ¬ env.now < s.deadline ∧
        (maybeUpdateIfMap env s).1 = some e)) := by
  have hkey : ∀ (k : Bytes) (e : Error), (interfaceWithKey env k s).err = some e →
      s.ifmap.get k = none ∧ ¬ env.now < s.deadline ∧ (maybeUpdateIfMap env s).1 = some e := by
    intro k e he
    rcases hg : s.ifmap.get k with _ | ifi
    · rw [(interfaceWithKey_of_absent env s k hg).1] at he
      exact ⟨rfl, (maybeUpdateIfMap_error_frame env s e he).2.2, he⟩
    · rw [interfaceWithKey_of_found env s k ifi hg] at he
      exact absurd he (by simp)
  refine ⟨?_, ?_, ?_⟩
  · intro k habs hok hstill
    have hnone : (maybeUpdateIfMap env s).1 = none := by
      rcases hok with hb | hn
      · rw [maybeUpdateIfMap_of_before env s hb]
      · exact hn
    obtain ⟨h1, -, -, h4⟩ := interfaceWithKey_of_absent env s k habs
    have hres : (interfaceWithKey env k s).ifi = none ∧ (interfaceWithKey env k s).err = none := by
      rw [h1, h4, if_pos hnone, hstill]
      exact ⟨rfl, hnone⟩
    refine ⟨hres, ?_, ?_⟩
    · intro ip hip
      simpa [InterfaceWithIP, hip] using hres
    · intro hw hhw
      simpa [InterfaceWithMAC, hhw] using hres
  · intro ip e he
    rcases hk : keyForIP ip with e2 | k
    · left
      simp only [InterfaceWithIP, hk, Option.some.injEq] at he
      rw [he]
    · right
      simp only [InterfaceWithIP, hk] at he
      exact ⟨k, rfl, hkey k e he⟩
  · intro hw e he
    rcases hk : keyForMAC hw with e2 | k
    · left
      simp only [InterfaceWithMAC, hk, Option.some.injEq] at he
      rw [he]
    · right
      simp only [InterfaceWithMAC, hk] at he
      exact ⟨k, rfl, hkey k e he⟩

/-- Witness of C16: `127.255.255.255` of `TestLookupUnknownIP`, in the initial
state (the rebuild succeeds) and before the deadline (the rebuild is
throttled). -/
theorem not_found_is_not_an_error_witness :
    ((InterfaceWithIP sampleEnv (IPv4 127 255 255 255) State.initial).ifi = none ∧
      (InterfaceWithIP sampleEnv (IPv4 127 255 255 255) State.initial).err = none) ∧
    ((InterfaceWithIP sampleEnv (IPv4 127 255 255 255) sampleThrottled).ifi = none ∧
      (InterfaceWithIP sampleEnv (IPv4 127 255 255 255) sampleThrottled).err = none) :=
  ⟨(((not_found_is_not_an_error sampleEnv State.initial).1 (strI4 ++ [127, 255, 255, 255])
      (by decide) (Or.inr (by decide)) (by decide)).2.1 (IPv4 127 255 255 255) (by decide)),
   (((not_found_is_not_an_error sampleEnv sampleThrottled).1 (strI4 ++ [127, 255, 255, 255])
      (by decide) (Or.inl (by decide)) (by decide)).2.1 (IPv4 127 255 255 255) (by decide))⟩

/-- C17: the lookup of a key that is absent from the cache calls the provider
whenever the current time is not strictly before the deadline, the time equal
to the deadline included; in particular, with an empty cache and the deadline
at the zero time, the lookup of any supported IP or hardware address calls the
provider, at every time the clock can read (none is before the zero time). -/
theorem absent_key_when_due_calls_provider (env : Env) (s : State) :
    (∀ k : Bytes, s.ifmap.get k = none → s.deadline ≤ env.now →
      Call.Interfaces ∈ (interfaceWithKey env k s).calls) ∧
    (s.ifmap = [] → s.deadline = 0 → 0 ≤ env.now →
      (∀ ip k : Bytes, keyForIP ip = .ok k →
        Call.Interfaces ∈ (InterfaceWithIP env ip s).calls) ∧
      (∀ hw k : Bytes, keyForMAC hw = .ok k →
        Call.Interfaces ∈ (InterfaceWithMAC env hw s).calls)) := by
  refine ⟨fun k hk hle => interfaceWithKey_calls_provider env s k hk (by omega), ?_⟩
  intro hm hd hnow
  have habs : ∀ k : Bytes, s.ifmap.get k = none := by
    intro k
    rw [hm]
    rfl
  have hdue : ¬ env.now < s.deadline := by omega
  constructor
  · intro ip k hk
    simpa [InterfaceWithIP, hk] using interfaceWithKey_calls_provider env s k (habs k) hdue
  · intro hw k hk
    simpa [InterfaceWithMAC, hk] using interfaceWithKey_calls_provider env s k (habs k) hdue

/-- Witness of C17: a lookup at time 3000 with deadline 3000, and the first
lookup in the initial state. -/
theorem absent_key_when_due_calls_provider_witness :
    Call.Interfaces ∈ (interfaceWithKey ⟨3000, .ok [sampleLo]⟩ (strI4 ++ [192, 168, 1, 10])
      sampleWarm).calls ∧
    Call.Interfaces ∈ (InterfaceWithIP sampleEnv (IPv4 127 0 0 1) State.initial).calls :=
  ⟨(absent_key_when_due_calls_provider ⟨3000, .ok [sampleLo]⟩ sampleWarm).1
      (strI4 ++ [192, 168, 1, 10]) (by decide) (by decide),
   ((absent_key_when_due_calls_provider sampleEnv State.initial).2 rfl rfl (by decide)).1
      (IPv4 127 0 0 1) (strI4 ++ [127, 0, 0, 1]) (by decide)⟩

/-! ## One key per address -/

/-- A key that `keyForIP` returns is a tag followed by the address the value
denotes: `"i4"` and 4 bytes, or `"i6"` and 16 bytes. -/
theorem keyForIP_canonical (ip k : Bytes) (h : keyForIP ip = .ok k) :
    (k = strI4 ++ canonicalIP ip ∧ (canonicalIP ip).length = 4) ∨
    (k = strI6 ++ canonicalIP ip ∧ (canonicalIP ip).length = 16) := by
  by_cases h4 : ip.length = 4
  · left
    have hc : canonicalIP ip = ip := by simp [canonicalIP, h4]
    rw [keyForIP_of_length_four ip h4] at h
    simp only [Except.ok.injEq] at h
    rw [hc]
    exact ⟨h.symm, h4⟩
  · by_cases h16 : ip.length = 16
    · by_cases hp : ip.take 12 = v4InV6Prefix
      · left
        have hc : canonicalIP ip = ip.drop 12 := by simp [canonicalIP, h16, hp]
        rw [keyForIP_of_mapped ip h16 hp] at h
        simp only [Except.ok.injEq] at h
        rw [hc]
        exact ⟨h.symm, by simp [h16]⟩
      · right
        have hc : canonicalIP ip = ip := by simp [canonicalIP, hp]
        rw [keyForIP_of_To4_none ip h16 (by rw [To4_of_length_sixteen ip h16, if_neg hp])] at h
        simp only [Except.ok.injEq] at h
        rw [hc]
        exact ⟨h.symm, h16⟩
    · simp [keyForIP, To4_of_other_length ip h4 h16, To16_of_other_length ip h4 h16] at h

/-- C18: key derivation yields one key per address.  Two hardware addresses of 6
bytes with the same key are equal; and two IP values on which `keyForIP`
succeeds have the same key if and only if they denote the same address once an
IPv4-mapped 16-byte value is replaced by its 4-byte form. -/
theorem key_unique_per_address :
    (∀ h1 h2 : Bytes, h1.length = 6 → h2.length = 6 → keyForMAC h1 = keyForMAC h2 → h1 = h2) ∧
    (∀ p q : Bytes, (∃ k, keyForIP p = .ok k) → (∃ k, keyForIP q = .ok k) →
      (keyForIP p = keyForIP q ↔ canonicalIP p = canonicalIP q)) := by
  constructor
  · intro h1 h2 l1 l2 h
    simpa [keyForMAC, l1, l2] using h
  · rintro p q ⟨kp, hp⟩ ⟨kq, hq⟩
    rw [hp, hq]
    have cp := keyForIP_canonical p kp hp
    have cq := keyForIP_canonical q kq hq
    constructor
    · intro h
      simp only [Except.ok.injEq] at h
      subst h
      rcases cp with ⟨hk1, l1⟩ | ⟨hk1, l1⟩ <;> rcases cq with ⟨hk2, l2⟩ | ⟨hk2, l2⟩
      · rw [hk1] at hk2
        exact List.append_cancel_left hk2
      · rw [hk1] at hk2
        simp [strI4, strI6] at hk2
      · rw [hk1] at hk2
        simp [strI4, strI6] at hk2
      · rw [hk1] at hk2
        exact List.append_cancel_left hk2
    · intro h
      rcases cp with ⟨hk1, l1⟩ | ⟨hk1, l1⟩ <;> rcases cq with ⟨hk2, l2⟩ | ⟨hk2, l2⟩
      · rw [hk1, hk2, h]
      · rw [h, l2] at l1
        exact absurd l1 (by decide)
      · rw [h, l2] at l1
        exact absurd l1 (by decide)
      · rw [hk1, hk2, h]

/-- Witness of C18: `127.0.0.1` in its 4-byte and in its 16-byte form has one key;
`127.0.0.1` and `127.0.0.2` have two, and so have two hardware addresses that
differ in their last byte. -/
theorem key_unique_per_address_witness :
    keyForIP [127, 0, 0, 1] = keyForIP (IPv4 127 0 0 1) ∧
    keyForIP [127, 0, 0, 1] ≠ keyForIP [127, 0, 0, 2] ∧
    keyForMAC [0x62, 0x69, 0x67, 0x4d, 0x61, 0x63] ≠ keyForMAC [0x62, 0x69, 0x67, 0x4d, 0x61, 0x64] :=
  ⟨(key_unique_per_address.2 [127, 0, 0, 1] (IPv4 127 0 0 1)
      ⟨strI4 ++ [127, 0, 0, 1], by decide⟩ ⟨strI4 ++ [127, 0, 0, 1], by decide⟩).2 (by decide),
   fun h => absurd ((key_unique_per_address.2 [127, 0, 0, 1] [127, 0, 0, 2]
      ⟨strI4 ++ [127, 0, 0, 1], by decide⟩ ⟨strI4 ++ [127, 0, 0, 2], by decide⟩).1 h)
      (by decide),
   fun h => absurd (key_unique_per_address.1 [0x62, 0x69, 0x67, 0x4d, 0x61, 0x63]
      [0x62, 0x69, 0x67, 0x4d, 0x61, 0x64] (by decide) (by decide) h) (by decide)⟩

/-! ## The loops insert the entries one after the other: lemmas -/

/-- Inserting a concatenation: the second part runs only if the first succeeds. -/
theorem runSteps_append (a b : List Step) :
    ∀ m : IfMap, runSteps (a ++ b) m =
      (match runSteps a m with
        | (none, m1) => runSteps b m1
        | (some err, m1) => (some err, m1)) := by
  induction a with
  | nil =>
    intro m
    simp [runSteps]
  | cons st rest ih =>
    intro m
    rcases hk : st.key with e | k
    · simp [runSteps, hk]
    · by_cases hf : (m.get k).isSome = true
      · simp [runSteps, hk, hf]
      · simp [runSteps, hk, hf, ih]

/-- The hardware-address step of the loop inserts the hardware-address entry. -/
theorem putHardwareAddr_eq_runSteps (ifi : Interface) (m : IfMap) :
    putHardwareAddr ifi m = runSteps (hwSteps ifi) m := by
  by_cases h0 : ifi.HardwareAddr.length = 0
  · simp [putHardwareAddr, hwSteps, h0, runSteps]
  · rcases hk : keyForMAC ifi.HardwareAddr with e | k
    · simp [putHardwareAddr, hwSteps, h0, runSteps, Step.key, hk]
    · by_cases hf : (m.get k).isSome = true
      · simp [putHardwareAddr, hwSteps, h0, runSteps, Step.key, Step.duplicate, hk, hf]
      · simp [putHardwareAddr, hwSteps, h0, runSteps, Step.key, Step.ifi, hk, hf]

/-- The address loop inserts the IP entries in order. -/
theorem rangeAddrs_eq_runSteps (ifi : Interface) (addrs : List Addr) :
    ∀ m : IfMap, rangeAddrs ifi addrs m = runSteps (ipSteps ifi addrs) m := by
  induction addrs with
  | nil =>
    intro m
    rfl
  | cons a rest ih =>
    intro m
    cases a with
    | other network text => simpa [rangeAddrs, ipSteps] using ih m
    | IPNet ip mask =>
      rcases hk : keyForIP ip with e | k
      · simp [rangeAddrs, ipSteps, runSteps, Step.key, hk]
      · by_cases hf : (m.get k).isSome = true
        · simp [rangeAddrs, ipSteps, runSteps, Step.key, Step.duplicate, hk, hf]
        · simp [rangeAddrs, ipSteps, runSteps, Step.key, Step.ifi, hk, hf, ih]

/-- The interface loop inserts the entries of the provider list in order: its
error and its map are those of `runSteps`. -/
theorem rangeIfs_eq_runSteps (L : List Interface) :
    ∀ (m : IfMap) (cs : List Call),
      ((rangeIfs L m cs).1, (rangeIfs L m cs).2.1) = runSteps (steps L) m := by
  induction L with
  | nil =>
    intro m cs
    rfl
  | cons ifi rest ih =>
    intro m cs
    have hp := putHardwareAddr_eq_runSteps ifi m
    simp only [steps, stepsOf, List.append_assoc]
    rw [runSteps_append, ← hp]
    rcases hp1 : putHardwareAddr ifi m with ⟨_ | e1, m1⟩
    · rcases ha : ifi.Addrs with e2 | addrs
      · simp [rangeIfs, hp1, ha, runSteps, Step.key]
      · have hr := rangeAddrs_eq_runSteps ifi addrs m1
        simp only []
        rw [runSteps_append, ← hr]
        rcases hr1 : rangeAddrs ifi addrs m1 with ⟨_ | e3, m2⟩
        · simp [rangeIfs, hp1, ha, hr1, ih]
        · simp [rangeIfs, hp1, ha, hr1]
    · simp [rangeIfs, hp1]

/-- The entries of a concatenation of provider lists. -/
theorem steps_append (a b : List Interface) : steps (a ++ b) = steps a ++ steps b := by
  induction a with
  | nil => rfl
  | cons ifi rest ih => simp [steps, ih]

/-- The keys derived by a concatenation of entries. -/
theorem entriesDone_append (a b : List Step) :
    entriesDone (a ++ b) = entriesDone a ++ entriesDone b := by
  induction a with
  | nil => rfl
  | cons st rest ih => simp [entriesDone, ih]

/-- The hardware-address entry derives the MAC entry. -/
theorem entriesDone_hwSteps (ifi : Interface) : entriesDone (hwSteps ifi) = macEntries ifi := by
  by_cases h0 : ifi.HardwareAddr.length = 0
  · simp [hwSteps, macEntries, h0, entriesDone]
  · rcases hk : keyForMAC ifi.HardwareAddr with e | k <;>
      simp [hwSteps, macEntries, h0, entriesDone, Step.key, Step.ifi, hk]

/-- The IP entries derive the IP keys. -/
theorem entriesDone_ipSteps (ifi : Interface) (addrs : List Addr) :
    entriesDone (ipSteps ifi addrs) = ipEntries ifi addrs := by
  induction addrs with
  | nil => rfl
  | cons a rest ih =>
    cases a with
    | other network text => simpa [ipSteps, ipEntries] using ih
    | IPNet ip mask =>
      rcases hk : keyForIP ip with e | k <;>
        simp [ipSteps, ipEntries, entriesDone, Step.key, Step.ifi, hk, ih]

/-- The entries of a provider list derive its derived keys, in the same order. -/
theorem entriesDone_steps (L : List Interface) : entriesDone (steps L) = derivedEntries L := by
  induction L with
  | nil => rfl
  | cons ifi rest ih =>
    simp only [steps, stepsOf, derivedEntries, entriesOf, entriesDone_append, entriesDone_hwSteps,
      ih]
    rcases ha : ifi.Addrs with e | addrs
    · simp [Interface.addrList, ha, entriesDone, Step.key, ipEntries]
    · simp [Interface.addrList, ha, entriesDone_ipSteps]

/-- What inserting a sequence of entries does, for every sequence and every
map: the sequence splits into the entries that were inserted and the rest; the
inserted ones all derive a key, their keys are pairwise distinct and were not
in the map, and the map afterwards is the map before with exactly them added;
there is no error exactly when the rest is empty; otherwise the first entry of
the rest fails, by its own error or because its key was in the map before or is
the key of an inserted entry. -/
theorem runSteps_spec (sts : List Step) :
    ∀ m : IfMap, ∃ done rest, sts = done ++ rest ∧
      (∀ st ∈ done, ∃ k, st.key = .ok k) ∧
      (keysOf (entriesDone done)).Nodup ∧
      (∀ k, k ∈ keysOf (entriesDone done) → m.get k = none) ∧
      Extends m (runSteps sts m).2 (entriesDone done) ∧
      ((runSteps sts m).1 = none → rest = []) ∧
      (∀ e, (runSteps sts m).1 = some e → ∃ f post, rest = f :: post ∧
        (f.key = .error e ∨
          ∃ k, f.key = .ok k ∧ e = f.duplicate ∧
            (m.get k ≠ none ∨ k ∈ keysOf (entriesDone done)))) := by
  induction sts with
  | nil =>
    intro m
    exact ⟨[], [], rfl, fun _ h => absurd h (List.not_mem_nil _), List.nodup_nil,
      fun _ h => absurd h (List.not_mem_nil _), Extends.nil m, fun _ => rfl,
      fun e h => absurd h (by simp [runSteps])⟩
  | cons st rest0 ih =>
    intro m
    rcases hk : st.key with e0 | k
    · -- the entry fails by its own error
      refine ⟨[], st :: rest0, rfl, fun _ h => absurd h (List.not_mem_nil _), List.nodup_nil,
        fun _ h => absurd h (List.not_mem_nil _), ?_, ?_, ?_⟩
      · simpa [runSteps, hk, entriesDone] using Extends.nil m
      · intro h
        simp [runSteps, hk] at h
      · intro e h
        simp only [runSteps, hk, Option.some.injEq] at h
        exact ⟨st, rest0, rfl, Or.inl (by rw [hk, h])⟩
    · by_cases hf : (m.get k).isSome = true
      · -- the key of the entry is in the map
        refine ⟨[], st :: rest0, rfl, fun _ h => absurd h (List.not_mem_nil _), List.nodup_nil,
          fun _ h => absurd h (List.not_mem_nil _), ?_, ?_, ?_⟩
        · simpa [runSteps, hk, hf, entriesDone] using Extends.nil m
        · intro h
          simp [runSteps, hk, hf] at h
        · intro e h
          simp only [runSteps, hk, hf, if_true, Option.some.injEq] at h
          refine ⟨st, rest0, rfl, Or.inr ⟨k, hk, h.symm, Or.inl ?_⟩⟩
          intro hn
          rw [hn] at hf
          exact absurd hf (by simp)
      · -- the entry is inserted
        have hfresh : m.get k = none := by
          rcases hg : m.get k with _ | v
          · rfl
          · rw [hg] at hf
            exact absurd rfl hf
        obtain ⟨done, rest, hsplit, hall, hnd, hfr, hext, hnone, hsome⟩ := ih (m.set k st.ifi)
        have hrun : runSteps (st :: rest0) m = runSteps rest0 (m.set k st.ifi) := by
          simp [runSteps, hk, hf]
        have hent : entriesDone (st :: done) = [(k, st.ifi)] ++ entriesDone done := by
          simp [entriesDone, hk]
        have hknot : k ∉ keysOf (entriesDone done) := by
          intro hmem
          have := hfr k hmem
          simp [IfMap.get_set] at this
        have hdisj : ∀ k2, k2 ∈ keysOf [(k, st.ifi)] → k2 ∉ keysOf (entriesDone done) := by
          intro k2 h2
          have : k2 = k := by simpa [keysOf] using h2
          rw [this]
          exact hknot
        refine ⟨st :: done, rest, by rw [hsplit]; rfl, ?_, ?_, ?_, ?_, ?_, ?_⟩
        · intro st2 h2
          rcases List.mem_cons.1 h2 with rfl | h3
          · exact ⟨k, hk⟩
          · exact hall st2 h3
        · rw [hent, keysOf_append]
          exact List.nodup_append.2 ⟨by simp [keysOf], hnd, fun _ h1 h2 => hdisj _ h1 h2⟩
        · intro k2 h2
          rw [hent, keysOf_append] at h2
          rcases List.mem_append.1 h2 with h3 | h3
          · have : k2 = k := by simpa [keysOf] using h3
            rw [this]
            exact hfresh
          · have hne : k2 ≠ k := fun e => hknot (e ▸ h3)
            have := hfr k2 h3
            rwa [IfMap.get_set, if_neg hne] at this
        · rw [hrun, hent]
          exact Extends.append (Extends.single m k st.ifi) hext hdisj
        · rw [hrun]
          exact hnone
        · intro e he
          rw [hrun] at he
          obtain ⟨f, post, hrest, hfail⟩ := hsome e he
          refine ⟨f, post, hrest, ?_⟩
          rcases hfail with h1 | ⟨k2, hk2, hdup, hin⟩
          · exact Or.inl h1
          · refine Or.inr ⟨k2, hk2, hdup, ?_⟩
            rw [hent, keysOf_append]
            by_cases hkk : k2 = k
            · right
              rw [hkk]
              simp [keysOf]
            · rcases hin with h3 | h3
              · left
                rwa [IfMap.get_set, if_neg hkk] at h3
              · right
                exact List.mem_append_right _ h3

/-- A due rebuild whose provider call succeeds inserts the entries of the
provider list into the empty map, one after the other. -/
theorem maybeUpdateIfMap_eq_runSteps (env : Env) (s : State) (L : List Interface)
    (hdue : ¬ env.now < s.deadline) (hprov : env.Interfaces = .ok L) :
    ((maybeUpdateIfMap env s).1, (maybeUpdateIfMap env s).2.1.ifmap) = runSteps (steps L) [] := by
  obtain ⟨h1, h2, -⟩ := maybeUpdateIfMap_of_list env s L hdue hprov
  rw [h1, h2]
  exact rangeIfs_eq_runSteps L [] [Call.Now, Call.Interfaces]

/-- What a due rebuild whose provider call succeeds does: `runSteps_spec` on the
entries of the provider list and the empty map. -/
theorem maybeUpdateIfMap_spec (env : Env) (s : State) (L : List Interface)
    (hdue : ¬ env.now < s.deadline) (hprov : env.Interfaces = .ok L) :
    ∃ done rest, steps L = done ++ rest ∧
      (∀ st ∈ done, ∃ k, st.key = .ok k) ∧
      (keysOf (entriesDone done)).Nodup ∧
      (∀ k v, (k, v) ∈ entriesDone done → (maybeUpdateIfMap env s).2.1.ifmap.get k = some v) ∧
      (∀ k, k ∉ keysOf (entriesDone done) → (maybeUpdateIfMap env s).2.1.ifmap.get k = none) ∧
      ((maybeUpdateIfMap env s).1 = none → rest = []) ∧
      (∀ e, (maybeUpdateIfMap env s).1 = some e → ∃ f post, rest = f :: post ∧
        (f.key = .error e ∨
          ∃ k, f.key = .ok k ∧ e = f.duplicate ∧ k ∈ keysOf (entriesDone done))) := by
  have hrun := maybeUpdateIfMap_eq_runSteps env s L hdue hprov
  have h1 : (runSteps (steps L) []).1 = (maybeUpdateIfMap env s).1 := by rw [← hrun]
  have h2 : (runSteps (steps L) []).2 = (maybeUpdateIfMap env s).2.1.ifmap := by rw [← hrun]
  obtain ⟨done, rest, hsplit, hall, hnd, -, hext, hnone, hsome⟩ := runSteps_spec (steps L) []
  rw [h1] at hnone hsome
  rw [h2] at hext
  refine ⟨done, rest, hsplit, hall, hnd, hext.1, fun k hk => hext.2 k hk, hnone, ?_⟩
  intro e he
  obtain ⟨f, post, hrest, hfail⟩ := hsome e he
  refine ⟨f, post, hrest, ?_⟩
  rcases hfail with h | ⟨k, hk, hdup, hin⟩
  · exact Or.inl h
  · rcases hin with h3 | h3
    · exact absurd rfl h3
    · exact Or.inr ⟨k, hk, hdup, h3⟩

/-- Every entry of a provider list that meets the conditions of C10 other than
distinct keys derives a key. -/
theorem steps_key_ok (L : List Interface)
    (hhw : ∀ ifi ∈ L, ifi.HardwareAddr.length = 0 ∨ ifi.HardwareAddr.length = 6)
    (haddrs : ∀ ifi ∈ L, ∃ addrs, ifi.Addrs = .ok addrs)
    (hip : ∀ ifi ∈ L, ∀ addrs, ifi.Addrs = .ok addrs →
      ∀ ip mask, Addr.IPNet ip mask ∈ addrs → ip.length = 4 ∨ ip.length = 16) :
    ∀ st ∈ steps L, ∃ k, st.key = .ok k := by
  have hips : ∀ (ifi : Interface) (addrs : List Addr),
      (∀ ip mask, Addr.IPNet ip mask ∈ addrs → ip.length = 4 ∨ ip.length = 16) →
      ∀ st ∈ ipSteps ifi addrs, ∃ k, st.key = .ok k := by
    intro ifi addrs
    induction addrs with
    | nil =>
      intro _ st h
      exact absurd h (List.not_mem_nil _)
    | cons a rest ih =>
      intro hlen st h
      have hlen2 : ∀ ip mask, Addr.IPNet ip mask ∈ rest → ip.length = 4 ∨ ip.length = 16 :=
        fun ip mask hm => hlen ip mask (List.mem_cons_of_mem _ hm)
      cases a with
      | other network text => exact ih hlen2 st (by simpa [ipSteps] using h)
      | IPNet ip mask =>
        simp only [ipSteps, List.mem_cons] at h
        rcases h with rfl | h
        · exact keyForIP_ok_of_length ip (hlen ip mask (List.mem_cons_self _ _))
        · exact ih hlen2 st h
  induction L with
  | nil =>
    intro st h
    exact absurd h (List.not_mem_nil _)
  | cons ifi rest ih =>
    intro st h
    simp only [steps, stepsOf, List.mem_append] at h
    rcases h with (h | h) | h
    · by_cases h0 : ifi.HardwareAddr.length = 0
      · simp [hwSteps, h0] at h
      · have h6 : ifi.HardwareAddr.length = 6 := by
          rcases hhw ifi (List.mem_cons_self _ _) with h | h
          · exact absurd h h0
          · exact h
        simp only [hwSteps, h0, ne_eq, not_false_eq_true, if_true, List.mem_singleton] at h
        rw [h]
        exact ⟨strM6 ++ ifi.HardwareAddr, by simp [Step.key, keyForMAC, h6]⟩
    · obtain ⟨addrs, hok⟩ := haddrs ifi (List.mem_cons_self _ _)
      rw [hok] at h
      exact hips ifi addrs (hip ifi (List.mem_cons_self _ _) addrs hok) st h
    · exact ih (fun i hi => hhw i (List.mem_cons_of_mem _ hi))
        (fun i hi => haddrs i (List.mem_cons_of_mem _ hi))
        (fun i hi => hip i (List.mem_cons_of_mem _ hi)) st h

/-- The non-empty hardware address of a member of the list is an entry. -/
theorem hw_mem_steps (L : List Interface) (ifi : Interface) (h : ifi ∈ L)
    (h0 : ifi.HardwareAddr.length ≠ 0) : Step.hw ifi ∈ steps L := by
  induction L with
  | nil => exact absurd h (List.not_mem_nil _)
  | cons i rest ih =>
    simp only [steps, stepsOf, List.mem_append]
    rcases List.mem_cons.1 h with rfl | h2
    · left
      left
      simp [hwSteps, h0]
    · right
      exact ih h2

/-- A duplicate error of an entry that derives a key is a duplicate-address
error. -/
theorem Step.duplicate_isDuplicate (f : Step) (k : Bytes) (h : f.key = .ok k) :
    f.duplicate.isDuplicate = true := by
  cases f with
  | hw i => simp [Step.duplicate, Error.isDuplicate]
  | listing i err => simp [Step.key] at h
  | ip i a => simp [Step.duplicate, Error.isDuplicate]

/-! ## Failing rebuilds: the claims -/

/-- C14: duplicate detection is complete.  For every provider list in which two
address entries derive the same key, a due rebuild returns an error; it never
succeeds. -/
theorem duplicate_key_fails_rebuild (env : Env) (s : State) (L : List Interface)
    (hdue : ¬ env.now < s.deadline) (hprov : env.Interfaces = .ok L)
    (hdup : ¬ (keysOf (derivedEntries L)).Nodup) :
    (∃ e, (maybeUpdateIfMap env s).1 = some e) ∧ (maybeUpdateIfMap env s).1 ≠ none := by
  have hne : (maybeUpdateIfMap env s).1 ≠ none := by
    intro hnone
    obtain ⟨done, rest, hsplit, -, hnd, -, -, hrest, -⟩ := maybeUpdateIfMap_spec env s L hdue hprov
    rw [hrest hnone, List.append_nil] at hsplit
    rw [← hsplit, entriesDone_steps] at hnd
    exact hdup hnd
  refine ⟨?_, hne⟩
  rcases h : (maybeUpdateIfMap env s).1 with _ | e
  · exact absurd h hne
  · exact ⟨e, rfl⟩

/-- Witness of C14: `lo` and `dummy0` both have `127.0.0.1`; the rebuild returns
the duplicate-address error. -/
theorem duplicate_key_fails_rebuild_witness :
    ¬ (keysOf (derivedEntries [sampleEth, sampleLo, sampleTwin])).Nodup ∧
    (maybeUpdateIfMap sampleDupEnv sampleWarm).1 =
      some (.errorf "duplicate IP address %q" (.ip (IPv4 127 0 0 1))) ∧
    (maybeUpdateIfMap sampleDupEnv sampleWarm).1 ≠ none :=
  ⟨by decide, by decide,
   (duplicate_key_fails_rebuild sampleDupEnv sampleWarm [sampleEth, sampleLo, sampleTwin]
      (by decide) rfl (by decide)).2⟩

/-- C20: a due rebuild whose provider call succeeds replaces the cache whatever
its outcome.  The loops insert the entries of the provider list (in provider
order, hardware address before IP addresses within each interface) into an
empty map, one after the other, until the first that fails; so the entry
sequence splits into the entries processed and the rest, the cache afterwards
holds exactly the keys of the processed entries, each with its interface, and
no other key (none of the previous cache), and when the rebuild fails the rest
starts with the failing entry: it fails by its own error or because its key is
the key of a processed entry. -/
theorem due_rebuild_publishes_processed_entries (env : Env) (s : State) (L : List Interface)
    (hdue : ¬ env.now < s.deadline) (hprov : env.Interfaces = .ok L) :
    ((maybeUpdateIfMap env s).1, (maybeUpdateIfMap env s).2.1.ifmap) = runSteps (steps L) [] ∧
    ∃ done rest, steps L = done ++ rest ∧
      (∀ st ∈ done, ∃ k, st.key = .ok k) ∧
      (keysOf (entriesDone done)).Nodup ∧
      (∀ k v, (k, v) ∈ entriesDone done → (maybeUpdateIfMap env s).2.1.ifmap.get k = some v) ∧
      (∀ k, k ∉ keysOf (entriesDone done) → (maybeUpdateIfMap env s).2.1.ifmap.get k = none) ∧
      ((maybeUpdateIfMap env s).1 = none → rest = []) ∧
      (∀ e, (maybeUpdateIfMap env s).1 = some e → ∃ f post, rest = f :: post ∧
        (f.key = .error e ∨
          ∃ k, f.key = .ok k ∧ e = f.duplicate ∧ k ∈ keysOf (entriesDone done))) :=
  ⟨maybeUpdateIfMap_eq_runSteps env s L hdue hprov, maybeUpdateIfMap_spec env s L hdue hprov⟩

/-- Witness of C20: the provider reports `eth0`, `lo` and `dummy0`; the rebuild
fails at the second address of `dummy0`.  The cache afterwards holds the five
entries processed before it, the first address of `dummy0` among them, and
`10.0.0.1` of the previous cache is gone. -/
theorem due_rebuild_publishes_processed_entries_witness :
    (maybeUpdateIfMap sampleDupEnv sampleWarm).1 =
      some (.errorf "duplicate IP address %q" (.ip (IPv4 127 0 0 1))) ∧
    keysOf (maybeUpdateIfMap sampleDupEnv sampleWarm).2.1.ifmap =
      [strI4 ++ [10, 1, 1, 1], strI6 ++ [0, 0, 0, 0, 0, 0, 0, 0, 0, 0, 0, 0, 0, 0, 0, 1],
        strI4 ++ [127, 0, 0, 1], strI4 ++ [192, 168, 1, 10],
        strM6 ++ [0x62, 0x69, 0x67, 0x4d, 0x61, 0x63]] ∧
    sampleWarm.ifmap.get (strI4 ++ [10, 0, 0, 1]) = some sampleEth ∧
    (maybeUpdateIfMap sampleDupEnv sampleWarm).2.1.ifmap.get (strI4 ++ [10, 0, 0, 1]) = none ∧
    ((maybeUpdateIfMap sampleDupEnv sampleWarm).1,
      (maybeUpdateIfMap sampleDupEnv sampleWarm).2.1.ifmap) =
        runSteps (steps [sampleEth, sampleLo, sampleTwin]) [] :=
  ⟨by decide, by decide, by decide, by decide,
   (due_rebuild_publishes_processed_entries sampleDupEnv sampleWarm
      [sampleEth, sampleLo, sampleTwin] (by decide) rfl).1⟩

/-- What a due rebuild does on a provider list in which every hardware address
has 0 or 6 bytes, every address listing succeeds, every IP-network address has
an IP of 4 or 16 bytes, and two entries derive the same key: it fails with a
duplicate-address error, that of the first entry whose key is the key of an
entry before it, it leaves the deadline as it was, and it leaves in `ifmap` the
half-built table, which holds exactly the entries processed before that
entry, whatever `ifmap` held before. -/
theorem duplicate_key_rebuild_error (env : Env) (s : State) (L : List Interface)
    (hdue : ¬ env.now < s.deadline) (hprov : env.Interfaces = .ok L)
    (hhw : ∀ ifi ∈ L, ifi.HardwareAddr.length = 0 ∨ ifi.HardwareAddr.length = 6)
    (haddrs : ∀ ifi ∈ L, ∃ addrs, ifi.Addrs = .ok addrs)
    (hip : ∀ ifi ∈ L, ∀ addrs, ifi.Addrs = .ok addrs →
      ∀ ip mask, Addr.IPNet ip mask ∈ addrs → ip.length = 4 ∨ ip.length = 16)
    (hdup : ¬ (keysOf (derivedEntries L)).Nodup) :
    ∃ e, (maybeUpdateIfMap env s).1 = some e ∧ e.isDuplicate = true ∧
      (maybeUpdateIfMap env s).2.1.deadline = s.deadline ∧
      ∃ done f post, steps L = done ++ f :: post ∧ e = f.duplicate ∧
        (∃ k, f.key = .ok k ∧ k ∈ keysOf (entriesDone done)) ∧
        (∀ k v, (k, v) ∈ entriesDone done →
          (maybeUpdateIfMap env s).2.1.ifmap.get k = some v) ∧
        (∀ k, k ∉ keysOf (entriesDone done) →
          (maybeUpdateIfMap env s).2.1.ifmap.get k = none) := by
  obtain ⟨done, rest, hsplit, -, hnd, hin, hout, hnone, hsome⟩ :=
    maybeUpdateIfMap_spec env s L hdue hprov
  rcases herr : (maybeUpdateIfMap env s).1 with _ | e
  · exfalso
    rw [hnone herr, List.append_nil] at hsplit
    rw [← hsplit, entriesDone_steps] at hnd
    exact hdup hnd
  · obtain ⟨f, post, hrest, hfail⟩ := hsome e herr
    rw [hrest] at hsplit
    have hmem : f ∈ steps L := by
      rw [hsplit]
      exact List.mem_append_right _ (List.mem_cons_self _ _)
    obtain ⟨kf, hkf⟩ := steps_key_ok L hhw haddrs hip f hmem
    rcases hfail with h | ⟨k, hk, hd, hkin⟩
    · rw [hkf] at h
      exact absurd h (by simp)
    · refine ⟨e, rfl, ?_, (maybeUpdateIfMap_error_frame env s e herr).1,
        done, f, post, hsplit, hd, ⟨k, hk, hkin⟩, hin, hout⟩
      rw [hd]
      exact Step.duplicate_isDuplicate f k hk

/-- C13: the code does not keep the previously published cache.  The cache holds
the hardware address of `eth0`, `10.0.0.1` and `127.0.0.1`, the deadline has
passed, and the provider reports `eth0`, `lo` and `dummy0`, where `lo` and
`dummy0` both have `127.0.0.1`.  The due rebuild fails with the
duplicate-address error and leaves the deadline as it was, as the claim says,
but the cache afterwards is the half-built table: `10.0.0.1` is gone and
`10.1.1.1` of `dummy0` is in it, and `127.0.0.1` is then answered with `lo`
from the cache, without error and without a call.  When instead the provider
call fails, the cache is kept. -/
theorem duplicate_rebuild_loses_previous_cache :
    ¬ (keysOf (derivedEntries [sampleEth, sampleLo, sampleTwin])).Nodup ∧
    ¬ sampleDupEnv.now < sampleWarm.deadline ∧
    (maybeUpdateIfMap sampleDupEnv sampleWarm).1 =
      some (.errorf "duplicate IP address %q" (.ip (IPv4 127 0 0 1))) ∧
    (maybeUpdateIfMap sampleDupEnv sampleWarm).2.1.deadline = sampleWarm.deadline ∧
    (maybeUpdateIfMap sampleDupEnv sampleWarm).2.1.ifmap ≠ sampleWarm.ifmap ∧
    sampleWarm.ifmap.get (strI4 ++ [10, 0, 0, 1]) = some sampleEth ∧
    (maybeUpdateIfMap sampleDupEnv sampleWarm).2.1.ifmap.get (strI4 ++ [10, 0, 0, 1]) = none ∧
    sampleWarm.ifmap.get (strI4 ++ [10, 1, 1, 1]) = none ∧
    (maybeUpdateIfMap sampleDupEnv sampleWarm).2.1.ifmap.get (strI4 ++ [10, 1, 1, 1]) =
      some sampleTwin ∧
    InterfaceWithIP sampleDupEnv (IPv4 127 0 0 1) (maybeUpdateIfMap sampleDupEnv sampleWarm).2.1 =
      { ifi := some sampleLo, err := none,
        state := (maybeUpdateIfMap sampleDupEnv sampleWarm).2.1, calls := [] } ∧
    (maybeUpdateIfMap sampleDown sampleWarm).1 = some (.os 24) ∧
    (maybeUpdateIfMap sampleDown sampleWarm).2.1.ifmap = sampleWarm.ifmap := by
  decide

/-- C19, as stated, fails on both counts.  The provider reports `tun0`, whose
address listing fails, and then `ib0`, whose hardware address has 20 bytes: the
due rebuild fails with the error of the listing, not with the error of the
hardware address.  And when the provider reports `ib0` before the deadline, the
lookup of `127.0.0.2`, which is not in the cache, returns nil, nil. -/
theorem unsupported_hardware_address_counterexample :
    sampleIb.HardwareAddr.length = 20 ∧
    ¬ (5000 : Int) < sampleWarm.deadline ∧
    (maybeUpdateIfMap ⟨5000, .ok [sampleGone, sampleIb]⟩ sampleWarm).1 = some (.os 19) ∧
    Error.os 19 ≠ .errorf "unhandled hardware address %q" (.raw sampleIb.HardwareAddr) ∧
    keyForIP [127, 0, 0, 2] = .ok (strI4 ++ [127, 0, 0, 2]) ∧
    sampleThrottled.ifmap.get (strI4 ++ [127, 0, 0, 2]) = none ∧
    (InterfaceWithIP ⟨5000, .ok [sampleIb]⟩ [127, 0, 0, 2] sampleThrottled).ifi = none ∧
    (InterfaceWithIP ⟨5000, .ok [sampleIb]⟩ [127, 0, 0, 2] sampleThrottled).err = none := by
  decide

/-- C19, amended: for every provider list that contains an interface whose
hardware address has a length other than 0 and 6, every due rebuild fails, so
every lookup, made when a rebuild is due, of a key that is not in the cache (by
key, or by an IP or hardware address that derives it) returns a nil interface
and the error; and the error is the unsupported-hardware-address error of that
interface when the interfaces before it in the list meet the conditions of C10
(so that no entry before it fails). -/
theorem unsupported_hardware_address_fails_rebuild (env : Env) (s : State)
    (L : List Interface) (hdue : ¬ env.now < s.deadline) (hprov : env.Interfaces = .ok L)
    (hbad : ∃ ifi ∈ L, ifi.HardwareAddr.length ≠ 0 ∧ ifi.HardwareAddr.length ≠ 6) :
    (∃ e, (maybeUpdateIfMap env s).1 = some e ∧
      ∀ k : Bytes, s.ifmap.get k = none →
        ((interfaceWithKey env k s).ifi = none ∧ (interfaceWithKey env k s).err = some e) ∧
        (∀ ip : Bytes, keyForIP ip = .ok k →
          (InterfaceWithIP env ip s).ifi = none ∧ (InterfaceWithIP env ip s).err = some e) ∧
        (∀ hw : Bytes, keyForMAC hw = .ok k →
          (InterfaceWithMAC env hw s).ifi = none ∧ (InterfaceWithMAC env hw s).err = some e)) ∧
    (∀ (pre post : List Interface) (ifi : Interface), L = pre ++ ifi :: post →
      ifi.HardwareAddr.length ≠ 0 → ifi.HardwareAddr.length ≠ 6 →
      (∀ i ∈ pre, i.HardwareAddr.length = 0 ∨ i.HardwareAddr.length = 6) →
      (∀ i ∈ pre, ∃ addrs, i.Addrs = .ok addrs) →
      (∀ i ∈ pre, ∀ addrs, i.Addrs = .ok addrs →
        ∀ ip mask, Addr.IPNet ip mask ∈ addrs → ip.length = 4 ∨ ip.length = 16) →
      (keysOf (derivedEntries pre)).Nodup →
      (maybeUpdateIfMap env s).1 =
        some (.errorf "unhandled hardware address %q" (.raw ifi.HardwareAddr))) := by
  constructor
  · obtain ⟨ifi, hmem, h0, h6⟩ := hbad
    have hkey : (Step.hw ifi).key =
        .error (.errorf "unhandled hardware address %q" (.raw ifi.HardwareAddr)) := by
      simp [Step.key, keyForMAC, h6]
    have hne : (maybeUpdateIfMap env s).1 ≠ none := by
      intro hnone
      obtain ⟨done, rest, hsplit, hall, -, -, -, hrest, -⟩ :=
        maybeUpdateIfMap_spec env s L hdue hprov
      rw [hrest hnone, List.append_nil] at hsplit
      obtain ⟨k, hk⟩ := hall (Step.hw ifi) (hsplit ▸ hw_mem_steps L ifi hmem h0)
      rw [hkey] at hk
      exact absurd hk (by simp)
    rcases herr : (maybeUpdateIfMap env s).1 with _ | e
    · exact absurd herr hne
    · refine ⟨e, rfl, fun k hk => ?_⟩
      obtain ⟨h1, -, -, h4⟩ := interfaceWithKey_of_absent env s k hk
      have hres : (interfaceWithKey env k s).ifi = none ∧
          (interfaceWithKey env k s).err = some e := by
        rw [h1, h4, herr]
        exact ⟨by simp, rfl⟩
      refine ⟨hres, ?_, ?_⟩
      · intro ip hip
        simpa [InterfaceWithIP, hip] using hres
      · intro hw hhw
        simpa [InterfaceWithMAC, hhw] using hres
  · intro pre post ifi hL h0 h6 hhw haddrs hip hnd
    have hip2 : ∀ i ∈ pre, ∀ ip mask, Addr.IPNet ip mask ∈ i.addrList →
        ip.length = 4 ∨ ip.length = 16 := by
      intro i hi ip mask hm
      obtain ⟨addrs, hok⟩ := haddrs i hi
      have hal : i.addrList = addrs := by simp [Interface.addrList, hok]
      rw [hal] at hm
      exact hip i hi addrs hok ip mask hm
    obtain ⟨m1, cs1, hrun, -⟩ := rangeIfs_ok pre [] [] hhw haddrs hip2 hnd (fun _ _ => rfl)
    have hpre : runSteps (steps pre) [] = (none, m1) := by
      rw [← rangeIfs_eq_runSteps pre [] [], hrun]
    have hkey : (Step.hw ifi).key =
        .error (.errorf "unhandled hardware address %q" (.raw ifi.HardwareAddr)) := by
      simp [Step.key, keyForMAC, h6]
    have hsteps : steps (ifi :: post) = Step.hw ifi ::
        ((match ifi.Addrs with
          | .ok addrs => ipSteps ifi addrs
          | .error err => [Step.listing ifi err]) ++ steps post) := by
      simp [steps, stepsOf, hwSteps, h0]
    have hall := maybeUpdateIfMap_eq_runSteps env s L hdue hprov
    rw [hL, steps_append, runSteps_append, hpre, hsteps] at hall
    simp only [runSteps, hkey] at hall
    exact (Prod.mk.inj hall).1

/-- Witness of C19 amended: the provider reports `lo` and then `ib0`; the due
rebuild fails with the error of the hardware address of `ib0`, and so does the
lookup of `192.168.1.10`, which is not in the cache. -/
theorem unsupported_hardware_address_fails_rebuild_witness :
    (maybeUpdateIfMap ⟨5000, .ok [sampleLo, sampleIb]⟩ sampleWarm).1 =
      some (.errorf "unhandled hardware address %q" (.raw sampleIb.HardwareAddr)) ∧
    (InterfaceWithIP ⟨5000, .ok [sampleLo, sampleIb]⟩ (IPv4 192 168 1 10) sampleWarm).err =
      some (.errorf "unhandled hardware address %q" (.raw sampleIb.HardwareAddr)) := by
  have hbad : ∃ ifi ∈ [sampleLo, sampleIb],
      ifi.HardwareAddr.length ≠ 0 ∧ ifi.HardwareAddr.length ≠ 6 :=
    ⟨sampleIb, by decide, by decide, by decide⟩
  have hhw : ∀ i ∈ [sampleLo], i.HardwareAddr.length = 0 ∨ i.HardwareAddr.length = 6 := by
    decide
  have haddrs : ∀ i ∈ [sampleLo], ∃ addrs, i.Addrs = .ok addrs := by
    intro i hi
    rw [List.mem_singleton.1 hi]
    exact ⟨_, rfl⟩
  have hip : ∀ i ∈ [sampleLo], ∀ addrs, i.Addrs = .ok addrs →
      ∀ ip mask, Addr.IPNet ip mask ∈ addrs → ip.length = 4 ∨ ip.length = 16 := by
    intro i hi addrs hok ip mask hm
    rw [List.mem_singleton.1 hi] at hok
    simp only [sampleLo, Except.ok.injEq] at hok
    subst hok
    simp only [List.mem_cons, Addr.IPNet.injEq, List.not_mem_nil, or_false] at hm
    rcases hm with ⟨rfl, -⟩ | ⟨rfl, -⟩ <;> decide
  have h := unsupported_hardware_address_fails_rebuild ⟨5000, .ok [sampleLo, sampleIb]⟩
    sampleWarm [sampleLo, sampleIb] (by decide) rfl hbad
  have herr := h.2 [sampleLo] [] sampleIb rfl (by decide) (by decide) hhw haddrs hip (by decide)
  obtain ⟨e, he, hlook⟩ := h.1
  have hee : e = .errorf "unhandled hardware address %q" (.raw sampleIb.HardwareAddr) := by
    rw [herr] at he
    exact (Option.some.inj he).symm
  refine ⟨herr, ?_⟩
  rw [← hee]
  exact ((hlook (strI4 ++ [192, 168, 1, 10]) (by decide)).2.1 (IPv4 192 168 1 10)
    (by decide)).2

end Netdevs
